import Mathlib

/-!
Verification development for the pyrometer AST-lowering core (`src/lib.rs`).

The Rust crate lowers a Solidity abstract syntax tree (supplied by the
external `solang_parser`) into a directed graph of heterogeneous nodes.
We model the graph as a node arena (a `List Node`, handle = index), the
edge set as a list, and the three `HashMap`s of the `Analyzer` as
association lists.  Rust panics (`panic!`, `todo!`, `expect`) are modelled
by a `fatal` result that carries the diagnostic together with the analyzer
state at the moment of the panic.

The payload types of several node kinds live in `types.rs` / `context.rs`,
which are not part of the analysed sources; where they are needed they are
modelled from the specification and marked as such in their doc comments.
-/

namespace Pyro

/-- An identifier of the Solidity AST (`solang_parser::pt::Identifier`,
location dropped). -/
structure Identifier where
  name : String
deriving DecidableEq, Repr

/-- Modelled from the spec: `types.rs` is not under `src/`.  A primitive
("builtin") type tag: unsigned/signed integer widths, fixed byte widths,
address, boolean, string, dynamic bytes. -/
inductive Builtin where
  | Address : Builtin
  | Bool : Builtin
  | Str : Builtin
  | Uint : Nat → Builtin
  | Int : Nat → Builtin
  | Bytes : Nat → Builtin
  | DynamicBytes : Builtin
deriving DecidableEq, Repr

/-- Modelled from the spec: `types.rs` is not under `src/`.  A resolved
semantic type reference wrapping the graph handle of a type-like node. -/
structure VarType where
  idx : Nat
deriving DecidableEq, Repr

/-- Modelled from the spec: `types.rs` is not under `src/`.  A dynamic-size
container type; the core uses arrays over an element `VarType`. -/
inductive DynBuiltin where
  | Array : VarType → DynBuiltin
deriving DecidableEq, Repr

/-- `Concrete` of `lib.rs`: an exact compile-time value with an explicit
representation tag.  `U256` values are naturals below `2 ^ 256`, `I256`
values are integers, `H256` a natural below `2 ^ 256`, addresses a natural
below `2 ^ 160`. -/
inductive Concrete where
  | Uint : Nat → Nat → Concrete
  | Int : Nat → Int → Concrete
  | Bytes : Nat → Nat → Concrete
  | Address : Nat → Concrete
  | DynBytes : List Nat → Concrete
  | Str : String → Concrete
  | Bool : Bool → Concrete
  | Array : List Concrete → Concrete

/-- Modelled from the spec: `context.rs` is not under `src/`.  One maximal
straight-line slice of symbolic execution; its internals are irrelevant to
the lowering claims. -/
structure Context where
  dummy : Unit
deriving DecidableEq, Repr

/-- Modelled from the spec: `context.rs` is not under `src/`.  A symbolic
binding of a source variable in one context; carries the optional
"temporary of" back-reference used by the report/debug layer. -/
structure ContextVar where
  tmp_of : Option Nat
deriving DecidableEq, Repr

/-- Contract node payload; `Contract::from` keeps the definition's name. -/
structure Contract where
  name : Option Identifier
deriving DecidableEq, Repr

/-- Function node payload; `Function::from` keeps the definition's name. -/
structure Function where
  name : Option Identifier
deriving DecidableEq, Repr

/-- Modelled from the spec: `types.rs` is not under `src/`.  A function
parameter node payload: the handle of its lowered type and its name. -/
structure FunctionParam where
  ty : Nat
  name : Option Identifier
deriving DecidableEq, Repr

/-- Modelled from the spec: `types.rs` is not under `src/`.  A function
return node payload: the handle of its lowered type and its name. -/
structure FunctionReturn where
  ty : Nat
  name : Option Identifier
deriving DecidableEq, Repr

/-- Struct node payload; `Struct::from` keeps the definition's name. -/
structure Struct where
  name : Option Identifier
deriving DecidableEq, Repr

/-- Enum node payload; `Enum::from` keeps the definition's name. -/
structure Enum where
  name : Option Identifier
deriving DecidableEq, Repr

/-- Error node payload; `Error::from` keeps the definition's name. -/
structure Error where
  name : Option Identifier
deriving DecidableEq, Repr

/-- Modelled from the spec: `types.rs` is not under `src/`.  An error
parameter node payload: the handle of its lowered type and its name. -/
structure ErrorParam where
  ty : Nat
  name : Option Identifier
deriving DecidableEq, Repr

/-- Modelled from the spec: `types.rs` is not under `src/`.  A struct field
node payload: the handle of its lowered type and its name. -/
structure Field where
  ty : Nat
  name : Option Identifier
deriving DecidableEq, Repr

/-- Modelled from the spec: `types.rs` is not under `src/`.  A free/state
variable node payload: the handle of its lowered type, its name, and the
`in_contract` flag passed by `parse_var_def`. -/
structure Var where
  ty : Nat
  name : Option Identifier
  in_contract : Bool
deriving DecidableEq, Repr

/-- Modelled from the spec: `types.rs` is not under `src/`.  A type-alias
node payload: the handle of the lowered right-hand type and the alias
name. -/
structure Ty where
  ty : Nat
  name : Identifier
deriving DecidableEq, Repr

/-- The heterogeneous graph node, one constructor per concept
(`Node` of `lib.rs`). -/
inductive Node where
  | Context : Context → Node
  | ContextVar : ContextVar → Node
  | ContextFork : Node
  | Builtin : Builtin → Node
  | DynBuiltin : DynBuiltin → Node
  | VarType : VarType → Node
  | SourceUnit : Nat → Node
  | SourceUnitPart : Nat → Nat → Node
  | Contract : Contract → Node
  | Function : Function → Node
  | FunctionParam : FunctionParam → Node
  | FunctionReturn : FunctionReturn → Node
  | Struct : Struct → Node
  | Enum : Enum → Node
  | Error : Error → Node
  | ErrorParam : ErrorParam → Node
  | Field : Field → Node
  | Var : Var → Node
  | Ty : Ty → Node
  | Unresolved : Identifier → Node
  | Concrete : Concrete → Node

/-- Modelled from the spec: `context.rs` is not under `src/`.  The context
edge relations of the core. -/
inductive ContextEdge where
  | Context : ContextEdge
  | Subcontext : ContextEdge
  | Variable : ContextEdge
  | Prev : ContextEdge
deriving DecidableEq, Repr

/-- The typed edge kinds (`Edge` of `lib.rs`). -/
inductive Edge where
  | Part : Edge
  | Context : ContextEdge → Edge
  | Contract : Edge
  | Field : Edge
  | Enum : Edge
  | Struct : Edge
  | Error : Edge
  | ErrorParam : Edge
  | Event : Edge
  | Var : Edge
  | Ty : Edge
  | Func : Edge
  | FunctionParam : Edge
  | FunctionReturn : Edge
deriving DecidableEq, Repr

/-- Association-list lookup, modelling `HashMap::get`. -/
def alookup {κ : Type} [DecidableEq κ] : List (κ × Nat) → κ → Option Nat
  | [], _ => none
  | (k', v) :: rest, k => if k = k' then some v else alookup rest k

/-- Association-list insert, modelling `HashMap::insert` (replaces the value
bound to an existing key, otherwise appends the binding). -/
def ainsert {κ : Type} [DecidableEq κ] : List (κ × Nat) → κ → Nat → List (κ × Nat)
  | [], k, v => [(k, v)]
  | (k', v') :: rest, k, v =>
      if k = k' then (k, v) :: rest else (k', v') :: ainsert rest k v

/-- The analyzer state (`Analyzer` of `lib.rs`): the node arena (handle =
list index), the edge list, and the three lookup tables.  The static
builtin-function catalog (`builtin_fns`, `builtin_fn_inputs`) is an
external fixed table the lowering never consults, and is omitted. -/
structure Analyzer where
  nodes : List Node
  edges : List (Nat × Nat × Edge)
  builtins : List (Builtin × Nat)
  dynBuiltins : List (DynBuiltin × Nat)
  userTypes : List (String × Nat)

/-- `GraphLike::add_node`: append the node to the arena and return its
handle (the previous length). -/
def add_node (a : Analyzer) (n : Node) : Nat × Analyzer :=
  (a.nodes.length, { a with nodes := a.nodes ++ [n] })

/-- `GraphLike::node`: fetch the node stored at a handle.  `none` models the
fatal `expect` panic on a handle absent from the graph. -/
def node (a : Analyzer) (i : Nat) : Option Node :=
  a.nodes[i]?

/-- `GraphLike::node_mut` followed by an in-place overwrite (`*unresolved =
...` in the declaration-lowering functions).  `none` models the fatal
`expect` panic on a handle absent from the graph. -/
def node_set (a : Analyzer) (i : Nat) (n : Node) : Option Analyzer :=
  if i < a.nodes.length then some { a with nodes := a.nodes.set i n } else none

/-- `GraphLike::add_edge`: append a directed typed edge. -/
def add_edge (a : Analyzer) (f t : Nat) (e : Edge) : Analyzer :=
  { a with edges := a.edges ++ [(f, t, e)] }

/-- Result of a lowering step: a value and the updated analyzer, or a panic
message together with the analyzer state at the moment of the panic. -/
inductive PRes (α : Type) where
  | ok : α → Analyzer → PRes α
  | fatal : String → Analyzer → PRes α

/-- Sequencing of lowering steps; a panic propagates unchanged. -/
def PRes.bind {α β : Type} (r : PRes α) (f : α → Analyzer → PRes β) : PRes β :=
  match r with
  | .ok v a => f v a
  | .fatal m a => .fatal m a

/-- The type expressions of the AST (`solang_parser::pt::Type`), split into
the primitive shapes `Builtin::try_from_ty` accepts and the non-builtin
shapes (mappings, function types) it rejects. -/
inductive SolType where
  | Address : SolType
  | Bool : SolType
  | Str : SolType
  | Uint : Nat → SolType
  | Int : Nat → SolType
  | Bytes : Nat → SolType
  | DynamicBytes : SolType
  | Mapping : SolType
  | FunctionTy : SolType
deriving DecidableEq, Repr

/-- Modelled from the spec: `types.rs` is not under `src/`.
`Builtin::try_from_ty` maps a primitive type expression to its builtin tag
and yields nothing on the non-builtin shapes. -/
def Builtin.try_from_ty : SolType → Option Builtin
  | .Address => some .Address
  | .Bool => some .Bool
  | .Str => some .Str
  | .Uint w => some (.Uint w)
  | .Int w => some (.Int w)
  | .Bytes w => some (.Bytes w)
  | .DynamicBytes => some .DynamicBytes
  | .Mapping => none
  | .FunctionTy => none

/-- The expression shapes `parse_expr` distinguishes
(`solang_parser::pt::Expression`, locations dropped).  A number literal
carries the natural number denoted by its decimal mantissa string and, when
the exponent string is non-empty, the natural denoted by the exponent
(`none` models the empty exponent string).  `Other` stands for every
remaining expression kind, which the catch-all arm handles. -/
inductive Expression where
  | TypeExpr : SolType → Expression
  | Variable : Identifier → Expression
  | ArraySubscript : Expression → Option Expression → Expression
  | NumberLiteral : Nat → Option Nat → Expression
  | Other : Expression

/-- Modelled from the spec: `types.rs` is not under `src/`.
`VarType::try_from_idx` wraps a handle as a resolved semantic type
reference when the node stored there is type-like (builtin, dyn-builtin,
user type declaration, unresolved placeholder, or concrete). -/
def VarType.try_from_idx (a : Analyzer) (idx : Nat) : Option VarType :=
  match node a idx with
  | some (Node.Builtin _) => some ⟨idx⟩
  | some (Node.DynBuiltin _) => some ⟨idx⟩
  | some (Node.VarType _) => some ⟨idx⟩
  | some (Node.Contract _) => some ⟨idx⟩
  | some (Node.Struct _) => some ⟨idx⟩
  | some (Node.Enum _) => some ⟨idx⟩
  | some (Node.Ty _) => some ⟨idx⟩
  | some (Node.Unresolved _) => some ⟨idx⟩
  | some (Node.Concrete _) => some ⟨idx⟩
  | _ => none

/-- `AnalyzerLike::parse_expr` of `lib.rs`.

* `Type` arm: a primitive type is interned through the `builtins` table
  (lookup, else add a node and register); a non-builtin type expression
  falls back to `0.into()` with no state change.
* `Variable` arm: the name is looked up in `user_types`; a hit returns the
  registered handle, a miss adds an `Unresolved` placeholder node and
  registers it.
* `ArraySubscript` with no index: the element type is parsed, wrapped by
  `VarType::try_from_idx`, and interned through the `dyn_builtins` table;
  when the wrap fails the Rust hits `todo!("???")`, modelled as `fatal`.
* `ArraySubscript` with an index: both sub-expressions are parsed for their
  side effects and the sentinel handle `0` is returned.
* `NumberLiteral`: `U256::from_dec_str(int).unwrap()` panics when the
  mantissa does not fit in 256 bits, and likewise for a non-empty exponent;
  the stored value is `int.pow(exp)` — the mantissa raised to the exponent
  — which `U256::pow` computes when it fits (it panics on overflow),
  tagged `Concrete::Uint(256, val)`.
* every other expression kind: the catch-all returns `0.into()`. -/
def parse_expr : Expression → Analyzer → PRes Nat
  | .TypeExpr ty, a =>
      match Builtin.try_from_ty ty with
      | some builtin =>
          match alookup a.builtins builtin with
          | some idx => .ok idx a
          | none =>
              let p := add_node a (Node.Builtin builtin)
              .ok p.1 { p.2 with builtins := ainsert p.2.builtins builtin p.1 }
      | none => .ok 0 a
  | .Variable ident, a =>
      match alookup a.userTypes ident.name with
      | some idx => .ok idx a
      | none =>
          let p := add_node a (Node.Unresolved ident)
          .ok p.1 { p.2 with userTypes := ainsert p.2.userTypes ident.name p.1 }
  | .ArraySubscript tyExpr none, a =>
      PRes.bind (parse_expr tyExpr a) fun innerTy a =>
        match VarType.try_from_idx a innerTy with
        | some varType =>
            let dynB := DynBuiltin.Array varType
            match alookup a.dynBuiltins dynB with
            | some idx => .ok idx a
            | none =>
                let p := add_node a (Node.DynBuiltin dynB)
                .ok p.1 { p.2 with dynBuiltins := ainsert p.2.dynBuiltins dynB p.1 }
        | none => .fatal "not yet implemented" a
  | .ArraySubscript tyExpr (some indexExpr), a =>
      PRes.bind (parse_expr tyExpr a) fun _innerTy a =>
        PRes.bind (parse_expr indexExpr a) fun _indexTy a =>
          .ok 0 a
  | .NumberLiteral int exp, a =>
      if int < 2 ^ 256 then
        match exp with
        | none =>
            let p := add_node a (Node.Concrete (Concrete.Uint 256 int))
            .ok p.1 p.2
        | some e =>
            if e < 2 ^ 256 then
              if int ^ e < 2 ^ 256 then
                let p := add_node a (Node.Concrete (Concrete.Uint 256 (int ^ e)))
                .ok p.1 p.2
              else .fatal "U256 pow overflow" a
            else .fatal "U256 from_dec_str failure" a
      else .fatal "U256 from_dec_str failure" a
  | .Other, a => .ok 0 a

/-- A statement of a function body.  The Context/Fork Builder that consumes
it lives in `context.rs`, outside the analysed sources, so the statement
structure is irrelevant here. -/
inductive Statement where
  | mk : Statement

/-- `solang_parser::pt::VariableDeclaration` (a struct field): its declared
type expression and optional name. -/
structure VariableDeclaration where
  ty : Expression
  name : Option Identifier

/-- `solang_parser::pt::ErrorParameter`: its declared type expression and
optional name. -/
structure ErrorParameter where
  ty : Expression
  name : Option Identifier

/-- `solang_parser::pt::Parameter` (function parameter or return): its
declared type expression and optional name. -/
structure Parameter where
  ty : Expression
  name : Option Identifier

/-- `solang_parser::pt::StructDefinition` (location dropped). -/
structure StructDefinition where
  name : Option Identifier
  fields : List VariableDeclaration

/-- `solang_parser::pt::EnumDefinition` (location and values dropped; the
lowering only uses the name). -/
structure EnumDefinition where
  name : Option Identifier

/-- `solang_parser::pt::ErrorDefinition` (location dropped). -/
structure ErrorDefinition where
  name : Option Identifier
  fields : List ErrorParameter

/-- `solang_parser::pt::FunctionDefinition` (location, attributes and
function kind dropped).  A parameter slot of the AST may be empty, which
the lowering skips. -/
structure FunctionDefinition where
  name : Option Identifier
  params : List (Option Parameter)
  returns : List (Option Parameter)
  body : Option Statement

/-- `solang_parser::pt::VariableDefinition` (location, attributes and
initializer dropped; the lowering consumes the type and the name). -/
structure VariableDefinition where
  ty : Expression
  name : Option Identifier

/-- `solang_parser::pt::TypeDefinition`: the alias name (always present)
and the aliased type expression. -/
structure TypeDefinition where
  name : Identifier
  ty : Expression

/-- `solang_parser::pt::ContractPart`: the declaration kinds that may occur
inside a contract.  The last four shapes have no lowering rule
(`todo!()` in `parse_contract_def`). -/
inductive ContractPart where
  | StructDefinition : StructDefinition → ContractPart
  | EnumDefinition : EnumDefinition → ContractPart
  | ErrorDefinition : ErrorDefinition → ContractPart
  | VariableDefinition : VariableDefinition → ContractPart
  | FunctionDefinition : FunctionDefinition → ContractPart
  | TypeDefinition : TypeDefinition → ContractPart
  | EventDefinition : ContractPart
  | AnnotationDef : ContractPart
  | Using : ContractPart
  | StraySemicolon : ContractPart

/-- `solang_parser::pt::ContractDefinition` (location, kind and bases
dropped). -/
structure ContractDefinition where
  name : Option Identifier
  parts : List ContractPart

/-- `solang_parser::pt::SourceUnitPart`: the top-level declaration kinds.
The last six shapes have no lowering rule (`todo!()` in
`parse_source_unit_part`). -/
inductive SourceUnitPart where
  | ContractDefinition : ContractDefinition → SourceUnitPart
  | StructDefinition : StructDefinition → SourceUnitPart
  | EnumDefinition : EnumDefinition → SourceUnitPart
  | ErrorDefinition : ErrorDefinition → SourceUnitPart
  | VariableDefinition : VariableDefinition → SourceUnitPart
  | FunctionDefinition : FunctionDefinition → SourceUnitPart
  | TypeDefinition : TypeDefinition → SourceUnitPart
  | EventDefinition : SourceUnitPart
  | AnnotationDef : SourceUnitPart
  | Using : SourceUnitPart
  | StraySemicolon : SourceUnitPart
  | PragmaDirective : SourceUnitPart
  | ImportDirective : SourceUnitPart

/-- `solang_parser::pt::SourceUnit`: the list of top-level parts. -/
structure SourceUnit where
  parts : List SourceUnitPart

/-- `Struct::from` keeps the definition's name. -/
def Struct.from (sd : StructDefinition) : Struct := ⟨sd.name⟩

/-- `Enum::from` keeps the definition's name. -/
def Enum.from (ed : EnumDefinition) : Enum := ⟨ed.name⟩

/-- `Error::from` keeps the definition's name. -/
def Error.from (ed : ErrorDefinition) : Error := ⟨ed.name⟩

/-- `Function::from` keeps the definition's name. -/
def Function.from (fd : FunctionDefinition) : Function := ⟨fd.name⟩

/-- `Contract::from` keeps the definition's name. -/
def Contract.from (cd : ContractDefinition) : Contract := ⟨cd.name⟩

/-- Modelled from the spec: `types.rs` is not under `src/`.  `Field::new`
lowers a struct field: the declared type expression is resolved through
`parse_expr` and the payload records the resulting handle and the name. -/
def Field.new (d : VariableDeclaration) (a : Analyzer) : PRes Field :=
  PRes.bind (parse_expr d.ty a) fun tyIdx a => .ok ⟨tyIdx, d.name⟩ a

/-- Modelled from the spec: `types.rs` is not under `src/`.
`ErrorParam::new` lowers an error parameter the same way. -/
def ErrorParam.new (d : ErrorParameter) (a : Analyzer) : PRes ErrorParam :=
  PRes.bind (parse_expr d.ty a) fun tyIdx a => .ok ⟨tyIdx, d.name⟩ a

/-- Modelled from the spec: `types.rs` is not under `src/`.
`FunctionParam::new` lowers a function parameter the same way. -/
def FunctionParam.new (d : Parameter) (a : Analyzer) : PRes FunctionParam :=
  PRes.bind (parse_expr d.ty a) fun tyIdx a => .ok ⟨tyIdx, d.name⟩ a

/-- Modelled from the spec: `types.rs` is not under `src/`.
`FunctionReturn::new` lowers a function return the same way. -/
def FunctionReturn.new (d : Parameter) (a : Analyzer) : PRes FunctionReturn :=
  PRes.bind (parse_expr d.ty a) fun tyIdx a => .ok ⟨tyIdx, d.name⟩ a

/-- Modelled from the spec: `types.rs` is not under `src/`.  `Var::new`
lowers a free/state variable declaration: the declared type is resolved
through `parse_expr`; the payload records the handle, the name and the
`in_contract` flag. -/
def Var.new (d : VariableDefinition) (in_contract : Bool) (a : Analyzer) : PRes Var :=
  PRes.bind (parse_expr d.ty a) fun tyIdx a => .ok ⟨tyIdx, d.name, in_contract⟩ a

/-- Modelled from the spec: `types.rs` is not under `src/`.  `Ty::new`
lowers a type alias: the aliased type is resolved through `parse_expr`. -/
def Ty.new (d : TypeDefinition) (a : Analyzer) : PRes Ty :=
  PRes.bind (parse_expr d.ty a) fun tyIdx a => .ok ⟨tyIdx, d.name⟩ a

/-- Modelled from the spec: `types.rs` is not under `src/`.
`VarNode::name` reads the `Var` payload stored at the handle; it panics
when the handle does not hold a `Var` node or the variable is unnamed. -/
def VarNode.name (i : Nat) (a : Analyzer) : PRes String :=
  match node a i with
  | some (Node.Var v) =>
      match v.name with
      | some ident => .ok ident.name a
      | none => .fatal "Var was not named" a
  | _ => .fatal "Node type confusion" a

/-- Modelled from the spec: `context.rs` is not under `src/`.  Per §4.3 the
Context/Fork Builder starts one entry execution context for the function
and wires it to the function node; it only appends nodes and edges and
never modifies an existing node. -/
def parse_ctx_statement (a : Analyzer) (_body : Statement) (_unchecked : Bool)
    (parent : Option Nat) : Analyzer :=
  let p := add_node a (Node.Context ⟨()⟩)
  match parent with
  | some par => add_edge p.2 p.1 par (Edge.Context ContextEdge.Context)
  | none => p.2

/-- The field loop of `parse_struct_def`: each field becomes its own node
with a `Field` containment edge to the owning struct node, in declaration
order. -/
def lower_struct_fields (owner : Nat) : List VariableDeclaration → Analyzer → PRes Unit
  | [], a => .ok () a
  | f :: rest, a =>
      PRes.bind (Field.new f a) fun fld a =>
        let p := add_node a (Node.Field fld)
        lower_struct_fields owner rest (add_edge p.2 p.1 owner Edge.Field)

/-- `Analyzer::parse_struct_def`: the struct's name must be present
(`expect`), an existing `user_types` entry is rewritten in place and its
handle reused, otherwise a fresh node is added and registered; then the
fields are lowered. -/
def parse_struct_def (sd : StructDefinition) (a : Analyzer) : PRes Nat :=
  let strukt := Struct.from sd
  match strukt.name with
  | none => .fatal "Struct was not named" a
  | some ident =>
      let step : PRes Nat :=
        match alookup a.userTypes ident.name with
        | some userTyNode =>
            match node_set a userTyNode (Node.Struct strukt) with
            | some a' => .ok userTyNode a'
            | none => .fatal "Index not in graph" a
        | none =>
            let p := add_node a (Node.Struct strukt)
            .ok p.1 { p.2 with userTypes := ainsert p.2.userTypes ident.name p.1 }
      PRes.bind step fun struktNode a =>
        PRes.bind (lower_struct_fields struktNode sd.fields a) fun _ a =>
          .ok struktNode a

/-- `Analyzer::parse_enum_def`: same placeholder-rewriting discipline as
`parse_struct_def`; enums lower no children. -/
def parse_enum_def (ed : EnumDefinition) (a : Analyzer) : PRes Nat :=
  let enu := Enum.from ed
  match enu.name with
  | none => .fatal "Struct was not named" a
  | some ident =>
      match alookup a.userTypes ident.name with
      | some userTyNode =>
          match node_set a userTyNode (Node.Enum enu) with
          | some a' => .ok userTyNode a'
          | none => .fatal "Index not in graph" a
      | none =>
          let p := add_node a (Node.Enum enu)
          .ok p.1 { p.2 with userTypes := ainsert p.2.userTypes ident.name p.1 }

/-- The parameter loop of `parse_err_def`: each error parameter becomes its
own node with an `ErrorParam` containment edge to the owning error node,
in declaration order. -/
def lower_err_params (owner : Nat) : List ErrorParameter → Analyzer → PRes Unit
  | [], a => .ok () a
  | f :: rest, a =>
      PRes.bind (ErrorParam.new f a) fun param a =>
        let p := add_node a (Node.ErrorParam param)
        lower_err_params owner rest (add_edge p.2 p.1 owner Edge.ErrorParam)

/-- `Analyzer::parse_err_def`: always adds a fresh `Error` node (the
`user_types` table is neither consulted nor updated), then lowers the
parameters. -/
def parse_err_def (ed : ErrorDefinition) (a : Analyzer) : PRes Nat :=
  let p := add_node a (Node.Error (Error.from ed))
  PRes.bind (lower_err_params p.1 ed.fields p.2) fun _ a => .ok p.1 a

/-- The parameter loop of `parse_func_def`: each present parameter becomes
its own node with a `FunctionParam` containment edge to the owning
function node, in declaration order; empty slots are skipped. -/
def lower_func_params (owner : Nat) : List (Option Parameter) → Analyzer → PRes Unit
  | [], a => .ok () a
  | none :: rest, a => lower_func_params owner rest a
  | some input :: rest, a =>
      PRes.bind (FunctionParam.new input a) fun param a =>
        let p := add_node a (Node.FunctionParam param)
        lower_func_params owner rest (add_edge p.2 p.1 owner Edge.FunctionParam)

/-- The return loop of `parse_func_def`, analogous to the parameter
loop. -/
def lower_func_returns (owner : Nat) : List (Option Parameter) → Analyzer → PRes Unit
  | [], a => .ok () a
  | none :: rest, a => lower_func_returns owner rest a
  | some output :: rest, a =>
      PRes.bind (FunctionReturn.new output a) fun ret a =>
        let p := add_node a (Node.FunctionReturn ret)
        lower_func_returns owner rest (add_edge p.2 p.1 owner Edge.FunctionReturn)

/-- `Analyzer::parse_func_def`: the function's name must be present
(`expect`), an existing `user_types` entry is rewritten in place and its
handle reused, otherwise a fresh node is added and registered; then the
parameters and returns are lowered and the body, when present, is handed
to the Context/Fork Builder. -/
def parse_func_def (fd : FunctionDefinition) (a : Analyzer) : PRes Nat :=
  let func := Function.from fd
  match func.name with
  | none => .fatal "Struct was not named" a
  | some ident =>
      let step : PRes Nat :=
        match alookup a.userTypes ident.name with
        | some userTyNode =>
            match node_set a userTyNode (Node.Function func) with
            | some a' => .ok userTyNode a'
            | none => .fatal "Index not in graph" a
        | none =>
            let p := add_node a (Node.Function func)
            .ok p.1 { p.2 with userTypes := ainsert p.2.userTypes ident.name p.1 }
      PRes.bind step fun funcNode a =>
        PRes.bind (lower_func_params funcNode fd.params a) fun _ a =>
          PRes.bind (lower_func_returns funcNode fd.returns a) fun _ a =>
            match fd.body with
            | some body => .ok funcNode (parse_ctx_statement a body false (some funcNode))
            | none => .ok funcNode a

/-- `Analyzer::parse_var_def`: always adds a fresh `Var` node and then
registers (or re-registers) the variable's name in `user_types`; no
placeholder lookup or in-place rewrite is performed. -/
def parse_var_def (vd : VariableDefinition) (in_contract : Bool) (a : Analyzer) : PRes Nat :=
  PRes.bind (Var.new vd in_contract a) fun var a =>
    let p := add_node a (Node.Var var)
    PRes.bind (VarNode.name p.1 p.2) fun name a =>
      .ok p.1 { a with userTypes := ainsert a.userTypes name p.1 }

/-- `Analyzer::parse_ty_def`: always adds a fresh `Ty` node; the
`user_types` table is neither consulted nor updated. -/
def parse_ty_def (td : TypeDefinition) (a : Analyzer) : PRes Nat :=
  PRes.bind (Ty.new td a) fun ty a =>
    let p := add_node a (Node.Ty ty)
    .ok p.1 p.2

/-- The part loop of `parse_contract_def`: each supported declaration is
lowered and wired to the contract node; event definitions, annotations,
using-directives and stray semicolons hit `todo!()`, modelled as
`fatal`. -/
def lower_contract_parts (conNode : Nat) : List ContractPart → Analyzer → PRes Unit
  | [], a => .ok () a
  | cpart :: rest, a =>
      let step : PRes Unit :=
        match cpart with
        | .StructDefinition d =>
            PRes.bind (parse_struct_def d a) fun n a =>
              .ok () (add_edge a n conNode Edge.Struct)
        | .EnumDefinition d =>
            PRes.bind (parse_enum_def d a) fun n a =>
              .ok () (add_edge a n conNode Edge.Enum)
        | .ErrorDefinition d =>
            PRes.bind (parse_err_def d a) fun n a =>
              .ok () (add_edge a n conNode Edge.Error)
        | .VariableDefinition d =>
            PRes.bind (parse_var_def d true a) fun n a =>
              .ok () (add_edge a n conNode Edge.Var)
        | .FunctionDefinition d =>
            PRes.bind (parse_func_def d a) fun n a =>
              .ok () (add_edge a n conNode Edge.Func)
        | .TypeDefinition d =>
            PRes.bind (parse_ty_def d a) fun n a =>
              .ok () (add_edge a n conNode Edge.Ty)
        | .EventDefinition => .fatal "not yet implemented" a
        | .AnnotationDef => .fatal "not yet implemented" a
        | .Using => .fatal "not yet implemented" a
        | .StraySemicolon => .fatal "not yet implemented" a
      PRes.bind step fun _ a => lower_contract_parts conNode rest a

/-- `Analyzer::parse_contract_def`: always adds a fresh `Contract` node,
then lowers the contract's parts. -/
def parse_contract_def (cd : ContractDefinition) (a : Analyzer) : PRes Nat :=
  let p := add_node a (Node.Contract (Contract.from cd))
  PRes.bind (lower_contract_parts p.1 cd.parts p.2) fun _ a => .ok p.1 a

/-- `Analyzer::parse_source_unit_part`: adds the `SourceUnitPart` node and
its `Part` edge to the source unit, then dispatches on the declaration
kind; the six unsupported shapes hit `todo!()`, modelled as `fatal`. -/
def parse_source_unit_part (sup : SourceUnitPart) (file_no unit_part : Nat)
    (parent : Nat) (a : Analyzer) : PRes Nat :=
  let p := add_node a (Node.SourceUnitPart file_no unit_part)
  let a := add_edge p.2 p.1 parent Edge.Part
  let supNode := p.1
  let step : PRes Unit :=
    match sup with
    | .ContractDefinition d =>
        PRes.bind (parse_contract_def d a) fun n a =>
          .ok () (add_edge a n supNode Edge.Contract)
    | .StructDefinition d =>
        PRes.bind (parse_struct_def d a) fun n a =>
          .ok () (add_edge a n supNode Edge.Struct)
    | .EnumDefinition d =>
        PRes.bind (parse_enum_def d a) fun n a =>
          .ok () (add_edge a n supNode Edge.Enum)
    | .ErrorDefinition d =>
        PRes.bind (parse_err_def d a) fun n a =>
          .ok () (add_edge a n supNode Edge.Error)
    | .VariableDefinition d =>
        PRes.bind (parse_var_def d false a) fun n a =>
          .ok () (add_edge a n supNode Edge.Var)
    | .FunctionDefinition d =>
        PRes.bind (parse_func_def d a) fun n a =>
          .ok () (add_edge a n supNode Edge.Func)
    | .TypeDefinition d =>
        PRes.bind (parse_ty_def d a) fun n a =>
          .ok () (add_edge a n supNode Edge.Ty)
    | .EventDefinition => .fatal "not yet implemented" a
    | .AnnotationDef => .fatal "not yet implemented" a
    | .Using => .fatal "not yet implemented" a
    | .StraySemicolon => .fatal "not yet implemented" a
    | .PragmaDirective => .fatal "not yet implemented" a
    | .ImportDirective => .fatal "not yet implemented" a
  PRes.bind step fun _ a => .ok supNode a

/-- The enumerated part loop of `parse_source_unit`. -/
def parse_source_unit_parts (file_no parent : Nat) (unit_part : Nat) :
    List SourceUnitPart → Analyzer → PRes Unit
  | [], a => .ok () a
  | sup :: rest, a =>
      PRes.bind (parse_source_unit_part sup file_no unit_part parent a) fun _ a =>
        parse_source_unit_parts file_no parent (unit_part + 1) rest a

/-- `Analyzer::parse_source_unit`: lowers every part in order, numbering
them from zero. -/
def parse_source_unit (su : SourceUnit) (file_no parent : Nat) (a : Analyzer) : PRes Unit :=
  parse_source_unit_parts file_no parent 0 su.parts a

/-- `Analyzer::parse`.  The external `solang_parser::parse` call is an
excluded collaborator, so its outcome is passed in as a value: on success
a `SourceUnit` node is added first and the unit is lowered under it; on
failure the function panics with the parser's diagnostic before touching
the graph. -/
def parse (parse_result : Except String SourceUnit) (file_no : Nat) (a : Analyzer) : PRes Nat :=
  match parse_result with
  | .ok source_unit =>
      let p := add_node a (Node.SourceUnit file_no)
      PRes.bind (parse_source_unit source_unit file_no p.1 p.2) fun _ a =>
        .ok p.1 a
  | .error e => .fatal e a

/-- `AnalyzerLike::builtin_or_add`: return the interned handle for a
builtin type, adding and registering a fresh node on first use. -/
def builtin_or_add (b : Builtin) (a : Analyzer) : Nat × Analyzer :=
  match alookup a.builtins b with
  | some idx => (idx, a)
  | none =>
      let p := add_node a (Node.Builtin b)
      (p.1, { p.2 with builtins := ainsert p.2.builtins b p.1 })

/-- The mutating operations of the public graph surface quantified over by
the append-only property. -/
inductive GraphOp where
  | addN : Node → GraphOp
  | addE : Nat → Nat → Edge → GraphOp

/-- Apply one `add_node`/`add_edge` operation. -/
def apply_op (a : Analyzer) : GraphOp → Analyzer
  | .addN n => (add_node a n).2
  | .addE f t e => add_edge a f t e

/-- Apply a sequence of `add_node`/`add_edge` operations in order. -/
def apply_ops (a : Analyzer) : List GraphOp → Analyzer
  | [] => a
  | op :: rest => apply_ops (apply_op a op) rest

/-! ### Append-only extension -/

/-- `a'` extends `a`: the arena only grows, every old handle still reads
the same node, and every old edge persists. -/
def Preserves (a a' : Analyzer) : Prop :=
  a.nodes.length ≤ a'.nodes.length ∧
  (∀ i, i < a.nodes.length → a'.nodes[i]? = a.nodes[i]?) ∧
  (∀ e, e ∈ a.edges → e ∈ a'.edges)

theorem Preserves.refl (a : Analyzer) : Preserves a a :=
  ⟨le_rfl, fun _ _ => rfl, fun _ h => h⟩

theorem Preserves.trans {a b c : Analyzer} (h1 : Preserves a b) (h2 : Preserves b c) :
    Preserves a c := by
  obtain ⟨l1, n1, e1⟩ := h1
  obtain ⟨l2, n2, e2⟩ := h2
  exact ⟨le_trans l1 l2,
    fun i hi => (n2 i (lt_of_lt_of_le hi l1)).trans (n1 i hi),
    fun e he => e2 e (e1 e he)⟩

theorem preserves_of_eq {a a' : Analyzer} (hn : a'.nodes = a.nodes)
    (he : a'.edges = a.edges) : Preserves a a' := by
  refine ⟨by rw [hn], fun i _ => by rw [hn], fun e hme => by rw [he]; exact hme⟩

theorem preserves_add_node (a : Analyzer) (n : Node) : Preserves a (add_node a n).2 := by
  refine ⟨by simp [add_node], fun i hi => ?_, fun e he => he⟩
  exact List.getElem?_append_left hi

theorem preserves_add_edge (a : Analyzer) (f t : Nat) (e : Edge) :
    Preserves a (add_edge a f t e) := by
  refine ⟨le_rfl, fun i _ => rfl, fun x hx => ?_⟩
  exact List.mem_append_left _ hx

/-- Eliminate a successful `PRes.bind` into its two successful stages. -/
theorem PRes.bind_ok {α β : Type} {r : PRes α} {f : α → Analyzer → PRes β} {v : β}
    {a' : Analyzer} (h : PRes.bind r f = .ok v a') :
    ∃ u a₁, r = .ok u a₁ ∧ f u a₁ = .ok v a' := by
  cases r with
  | ok u a₁ => exact ⟨u, a₁, rfl, h⟩
  | fatal m a₁ => exact PRes.noConfusion h

/-- A successful lookup returns a pair stored in the table. -/
theorem alookup_mem {κ : Type} [DecidableEq κ] :
    ∀ {m : List (κ × Nat)} {k : κ} {x : Nat}, alookup m k = some x → (k, x) ∈ m
  | [], k, x, h => by simp [alookup] at h
  | (k', v) :: rest, k, x, h => by
      by_cases hk : k = k'
      · subst hk
        simp only [alookup, if_pos rfl] at h
        cases h
        exact List.mem_cons_self _ _
      · simp only [alookup, if_neg hk] at h
        exact List.mem_cons_of_mem _ (alookup_mem h)

/-- Membership after an insert: an old pair or the inserted binding. -/
theorem mem_ainsert {κ : Type} [DecidableEq κ] :
    ∀ {m : List (κ × Nat)} {k : κ} {v : Nat} {p : κ × Nat},
      p ∈ ainsert m k v → p ∈ m ∨ p = (k, v)
  | [], k, v, p, h => by
      simp only [ainsert, List.mem_singleton] at h
      exact Or.inr h
  | (k', v') :: rest, k, v, p, h => by
      by_cases hk : k = k'
      · subst hk
        rw [ainsert, if_pos rfl] at h
        rcases List.mem_cons.mp h with h | h
        · exact Or.inr h
        · exact Or.inl (List.mem_cons_of_mem _ h)
      · rw [ainsert, if_neg hk] at h
        rcases List.mem_cons.mp h with h | h
        · exact Or.inl (h ▸ List.mem_cons_self _ _)
        · rcases mem_ainsert h with h' | h'
          · exact Or.inl (List.mem_cons_of_mem _ h')
          · exact Or.inr h'

/-- Looking up the key just inserted yields the inserted value. -/
theorem alookup_ainsert_self {κ : Type} [DecidableEq κ] :
    ∀ (m : List (κ × Nat)) (k : κ) (v : Nat), alookup (ainsert m k v) k = some v
  | [], k, v => by simp [ainsert, alookup]
  | (k', v') :: rest, k, v => by
      by_cases hk : k = k'
      · subst hk
        rw [ainsert, if_pos rfl, alookup, if_pos rfl]
      · rw [ainsert, if_neg hk, alookup, if_neg hk]
        exact alookup_ainsert_self rest k v

/-- Looking up a key different from the inserted one is unchanged. -/
theorem alookup_ainsert_ne {κ : Type} [DecidableEq κ] :
    ∀ (m : List (κ × Nat)) {k k' : κ} (v : Nat), k' ≠ k →
      alookup (ainsert m k v) k' = alookup m k'
  | [], k, k', v, hne => by
      simp only [ainsert, alookup, if_neg hne]
  | (k₀, v₀) :: rest, k, k', v, hne => by
      by_cases hk : k = k₀
      · subst hk
        rw [ainsert, if_pos rfl, alookup, alookup, if_neg hne, if_neg hne]
      · rw [ainsert, if_neg hk, alookup, alookup]
        by_cases hk' : k' = k₀
        · rw [if_pos hk', if_pos hk']
        · rw [if_neg hk', if_neg hk']
          exact alookup_ainsert_ne rest v hne

/-- New name-table entries of an extension are fresh: every binding of `a'`
is either an old binding or points into the part of the arena allocated
during the extension. -/
def TableExt (a a' : Analyzer) : Prop :=
  ∀ p ∈ a'.userTypes, p ∈ a.userTypes ∨
    (a.nodes.length ≤ p.2 ∧ p.2 < a'.nodes.length)

/-- Existing name-table bindings keep resolving to the same handle. -/
def LookupPreserve (a a' : Analyzer) : Prop :=
  ∀ k w, alookup a.userTypes k = some w → alookup a'.userTypes k = some w

/-- Append-only extension together with freshness of new name-table
entries and stability of old bindings: the invariant maintained by every
non-rewriting lowering step. -/
def Ext (a a' : Analyzer) : Prop :=
  Preserves a a' ∧ TableExt a a' ∧ LookupPreserve a a'

theorem Ext.erefl (a : Analyzer) : Ext a a :=
  ⟨Preserves.refl a, fun p hp => Or.inl hp, fun _ _ h => h⟩

theorem Ext.etrans {a b c : Analyzer} (h1 : Ext a b) (h2 : Ext b c) : Ext a c := by
  refine ⟨h1.1.trans h2.1, fun p hp => ?_, fun k w hw => h2.2.2 k w (h1.2.2 k w hw)⟩
  rcases h2.2.1 p hp with h | h
  · rcases h1.2.1 p h with h' | h'
    · exact Or.inl h'
    · exact Or.inr ⟨h'.1, lt_of_lt_of_le h'.2 h2.1.1⟩
  · exact Or.inr ⟨le_trans h1.1.1 h.1, h.2⟩

theorem ext_of_eq {a a' : Analyzer} (hn : a'.nodes = a.nodes) (he : a'.edges = a.edges)
    (hu : a'.userTypes = a.userTypes) : Ext a a' :=
  ⟨preserves_of_eq hn he, fun p hp => Or.inl (hu ▸ hp), fun k w hw => by rw [hu]; exact hw⟩

theorem ext_add_node (a : Analyzer) (n : Node) : Ext a (add_node a n).2 :=
  ⟨preserves_add_node a n, fun p hp => Or.inl hp, fun _ _ h => h⟩

theorem ext_add_edge (a : Analyzer) (f t : Nat) (e : Edge) : Ext a (add_edge a f t e) :=
  ⟨preserves_add_edge a f t e, fun p hp => Or.inl hp, fun _ _ h => h⟩

/-- A successful `parse_expr` only appends to the graph, and any name-table
entry it adds points at the freshly added placeholder node. -/
theorem parse_expr_ext :
    ∀ (e : Expression) {v : Nat} {a a' : Analyzer},
      parse_expr e a = .ok v a' → Ext a a'
  | .TypeExpr ty, v, a, a', h => by
      cases hb : Builtin.try_from_ty ty with
      | none => simp only [parse_expr, hb] at h; cases h; exact Ext.erefl _
      | some b =>
          cases hl : alookup a.builtins b with
          | some idx =>
              simp only [parse_expr, hb, hl] at h; cases h; exact Ext.erefl _
          | none =>
              simp only [parse_expr, hb, hl] at h
              cases h
              exact (ext_add_node a (Node.Builtin b)).etrans (ext_of_eq rfl rfl rfl)
  | .Variable ident, v, a, a', h => by
      cases hl : alookup a.userTypes ident.name with
      | some idx =>
          simp only [parse_expr, hl] at h; cases h; exact Ext.erefl _
      | none =>
          simp only [parse_expr, hl] at h
          cases h
          refine ⟨(preserves_add_node a (Node.Unresolved ident)).trans
            (preserves_of_eq rfl rfl), fun p hp => ?_, fun k w hw => ?_⟩
          · rcases mem_ainsert hp with h' | h'
            · exact Or.inl h'
            · subst h'
              refine Or.inr ⟨le_rfl, ?_⟩
              simp [add_node]
          · have hne : k ≠ ident.name := by
              intro hkk
              rw [hkk, hl] at hw
              exact Option.noConfusion hw
            show alookup (ainsert a.userTypes ident.name a.nodes.length) k = some w
            rw [alookup_ainsert_ne _ _ hne]
            exact hw
  | .ArraySubscript tyExpr none, v, a, a', h => by
      simp only [parse_expr] at h
      obtain ⟨u, a₁, h₁, h₂⟩ := PRes.bind_ok h
      refine (parse_expr_ext tyExpr h₁).etrans ?_
      split at h₂
      · split at h₂
        · cases h₂; exact Ext.erefl _
        · cases h₂
          exact (ext_add_node a₁ _).etrans (ext_of_eq rfl rfl rfl)
      · exact PRes.noConfusion h₂
  | .ArraySubscript tyExpr (some indexExpr), v, a, a', h => by
      simp only [parse_expr] at h
      obtain ⟨u, a₁, h₁, h₂⟩ := PRes.bind_ok h
      obtain ⟨w, a₂, h₃, h₄⟩ := PRes.bind_ok h₂
      cases h₄
      exact (parse_expr_ext tyExpr h₁).etrans (parse_expr_ext indexExpr h₃)
  | .NumberLiteral int exp, v, a, a', h => by
      simp only [parse_expr] at h
      split at h
      · split at h
        · cases h; exact ext_add_node a _
        · split at h
          · split at h
            · cases h; exact ext_add_node a _
            · exact PRes.noConfusion h
          · exact PRes.noConfusion h
      · exact PRes.noConfusion h
  | .Other, v, a, a', h => by
      simp only [parse_expr] at h; cases h; exact Ext.erefl _

theorem Field_new_ext {d : VariableDeclaration} {f : Field} {a a' : Analyzer}
    (h : Field.new d a = .ok f a') : Ext a a' := by
  obtain ⟨u, a₁, h₁, h₂⟩ := PRes.bind_ok h
  cases h₂
  exact parse_expr_ext d.ty h₁

theorem ErrorParam_new_ext {d : ErrorParameter} {f : ErrorParam} {a a' : Analyzer}
    (h : ErrorParam.new d a = .ok f a') : Ext a a' := by
  obtain ⟨u, a₁, h₁, h₂⟩ := PRes.bind_ok h
  cases h₂
  exact parse_expr_ext d.ty h₁

theorem FunctionParam_new_ext {d : Parameter} {f : FunctionParam} {a a' : Analyzer}
    (h : FunctionParam.new d a = .ok f a') : Ext a a' := by
  obtain ⟨u, a₁, h₁, h₂⟩ := PRes.bind_ok h
  cases h₂
  exact parse_expr_ext d.ty h₁

theorem FunctionReturn_new_ext {d : Parameter} {f : FunctionReturn} {a a' : Analyzer}
    (h : FunctionReturn.new d a = .ok f a') : Ext a a' := by
  obtain ⟨u, a₁, h₁, h₂⟩ := PRes.bind_ok h
  cases h₂
  exact parse_expr_ext d.ty h₁

theorem Var_new_ext {d : VariableDefinition} {ic : Bool} {f : Var} {a a' : Analyzer}
    (h : Var.new d ic a = .ok f a') : Ext a a' := by
  obtain ⟨u, a₁, h₁, h₂⟩ := PRes.bind_ok h
  cases h₂
  exact parse_expr_ext d.ty h₁

theorem Ty_new_ext {d : TypeDefinition} {f : Ty} {a a' : Analyzer}
    (h : Ty.new d a = .ok f a') : Ext a a' := by
  obtain ⟨u, a₁, h₁, h₂⟩ := PRes.bind_ok h
  cases h₂
  exact parse_expr_ext d.ty h₁

theorem parse_ctx_statement_ext (a : Analyzer) (body : Statement) (u : Bool)
    (parent : Option Nat) : Ext a (parse_ctx_statement a body u parent) := by
  cases parent with
  | none => exact ext_add_node a _
  | some par =>
      exact (ext_add_node a (Node.Context ⟨()⟩)).etrans (ext_add_edge _ _ _ _)

theorem lower_struct_fields_ext :
    ∀ (fs : List VariableDeclaration) {owner : Nat} {u : Unit} {a a' : Analyzer},
      lower_struct_fields owner fs a = .ok u a' → Ext a a'
  | [], owner, u, a, a', h => by cases h; exact Ext.erefl _
  | f :: rest, owner, u, a, a', h => by
      simp only [lower_struct_fields] at h
      obtain ⟨fld, a₁, h₁, h₂⟩ := PRes.bind_ok h
      exact ((Field_new_ext h₁).etrans
        ((ext_add_node a₁ _).etrans (ext_add_edge _ _ _ _))).etrans
        (lower_struct_fields_ext rest h₂)

theorem lower_err_params_ext :
    ∀ (fs : List ErrorParameter) {owner : Nat} {u : Unit} {a a' : Analyzer},
      lower_err_params owner fs a = .ok u a' → Ext a a'
  | [], owner, u, a, a', h => by cases h; exact Ext.erefl _
  | f :: rest, owner, u, a, a', h => by
      simp only [lower_err_params] at h
      obtain ⟨par, a₁, h₁, h₂⟩ := PRes.bind_ok h
      exact ((ErrorParam_new_ext h₁).etrans
        ((ext_add_node a₁ _).etrans (ext_add_edge _ _ _ _))).etrans
        (lower_err_params_ext rest h₂)

theorem lower_func_params_ext :
    ∀ (ps : List (Option Parameter)) {owner : Nat} {u : Unit} {a a' : Analyzer},
      lower_func_params owner ps a = .ok u a' → Ext a a'
  | [], owner, u, a, a', h => by cases h; exact Ext.erefl _
  | none :: rest, owner, u, a, a', h => by
      simp only [lower_func_params] at h
      exact lower_func_params_ext rest h
  | some input :: rest, owner, u, a, a', h => by
      simp only [lower_func_params] at h
      obtain ⟨par, a₁, h₁, h₂⟩ := PRes.bind_ok h
      exact ((FunctionParam_new_ext h₁).etrans
        ((ext_add_node a₁ _).etrans (ext_add_edge _ _ _ _))).etrans
        (lower_func_params_ext rest h₂)

theorem lower_func_returns_ext :
    ∀ (ps : List (Option Parameter)) {owner : Nat} {u : Unit} {a a' : Analyzer},
      lower_func_returns owner ps a = .ok u a' → Ext a a'
  | [], owner, u, a, a', h => by cases h; exact Ext.erefl _
  | none :: rest, owner, u, a, a', h => by
      simp only [lower_func_returns] at h
      exact lower_func_returns_ext rest h
  | some output :: rest, owner, u, a, a', h => by
      simp only [lower_func_returns] at h
      obtain ⟨ret, a₁, h₁, h₂⟩ := PRes.bind_ok h
      exact ((FunctionReturn_new_ext h₁).etrans
        ((ext_add_node a₁ _).etrans (ext_add_edge _ _ _ _))).etrans
        (lower_func_returns_ext rest h₂)

/-- The handle `v` is allocated and no name-table binding points at it; such
a handle can never be the target of a placeholder rewrite. -/
def AvoidsV (v : Nat) (a : Analyzer) : Prop :=
  v < a.nodes.length ∧ ∀ p ∈ a.userTypes, p.2 ≠ v

/-- Weak extension: the arena grows, edges persist, and every allocated
handle no name-table binding points at keeps its node content (and stays
unpointed-at).  This is the invariant maintained by the full lowering,
placeholder rewrites included. -/
def WeakExt (a a' : Analyzer) : Prop :=
  a.nodes.length ≤ a'.nodes.length ∧
  (∀ e ∈ a.edges, e ∈ a'.edges) ∧
  ∀ v, AvoidsV v a → AvoidsV v a' ∧ a'.nodes[v]? = a.nodes[v]?

theorem WeakExt.wrefl (a : Analyzer) : WeakExt a a :=
  ⟨le_rfl, fun _ he => he, fun _ hv => ⟨hv, rfl⟩⟩

theorem WeakExt.wtrans {a b c : Analyzer} (h1 : WeakExt a b) (h2 : WeakExt b c) :
    WeakExt a c := by
  refine ⟨le_trans h1.1 h2.1, fun e he => h2.2.1 e (h1.2.1 e he), fun v hv => ?_⟩
  obtain ⟨hb, hcb⟩ := h1.2.2 v hv
  obtain ⟨hc, hcc⟩ := h2.2.2 v hb
  exact ⟨hc, hcc.trans hcb⟩

theorem weakExt_of_ext {a a' : Analyzer} (h : Ext a a') : WeakExt a a' := by
  obtain ⟨⟨hlen, hcontent, hedge⟩, htable, _⟩ := h
  refine ⟨hlen, hedge, fun v hv => ?_⟩
  obtain ⟨hvlt, hvtab⟩ := hv
  refine ⟨⟨lt_of_lt_of_le hvlt hlen, fun p hp => ?_⟩, hcontent v hvlt⟩
  rcases htable p hp with h' | h'
  · exact hvtab p h'
  · omega

/-- An in-place rewrite at a handle found in the name table is invisible to
every avoided handle. -/
theorem weakExt_node_set {a a' : Analyzer} {name : String} {idx : Nat} {nd : Node}
    (hl : alookup a.userTypes name = some idx) (hset : node_set a idx nd = some a') :
    WeakExt a a' := by
  unfold node_set at hset
  split at hset
  · cases hset
    refine ⟨by simp, fun e he => he, fun v hv => ?_⟩
    obtain ⟨hvlt, hvtab⟩ := hv
    have hne : idx ≠ v := hvtab (name, idx) (alookup_mem hl)
    exact ⟨⟨by simpa using hvlt, hvtab⟩, List.getElem?_set_ne hne⟩
  · exact Option.noConfusion hset

/-- Adding a fresh node and registering its (fresh) handle in the name
table is a weak extension. -/
theorem weakExt_add_register (a : Analyzer) (nd : Node) (name : String) :
    WeakExt a { (add_node a nd).2 with
      userTypes := ainsert (add_node a nd).2.userTypes name (add_node a nd).1 } := by
  refine ⟨by simp [add_node], fun e he => he, fun v hv => ?_⟩
  obtain ⟨hvlt, hvtab⟩ := hv
  refine ⟨⟨by simp [add_node]; omega, fun p hp => ?_⟩, List.getElem?_append_left hvlt⟩
  rcases mem_ainsert hp with h' | h'
  · exact hvtab p h'
  · subst h'
    simp only [add_node]
    omega

/-- On success `VarNode.name` returns the state unchanged. -/
theorem VarNode_name_ok {i : Nat} {a : Analyzer} {s : String} {a' : Analyzer}
    (h : VarNode.name i a = .ok s a') : a' = a := by
  unfold VarNode.name at h
  split at h
  · split at h
    · cases h; rfl
    · exact PRes.noConfusion h
  · exact PRes.noConfusion h

/-- A successful `parse_struct_def` is a weak extension. -/
theorem parse_struct_def_weak {sd : StructDefinition} {v : Nat} {a a' : Analyzer}
    (h : parse_struct_def sd a = .ok v a') : WeakExt a a' := by
  simp only [parse_struct_def] at h
  split at h
  · exact PRes.noConfusion h
  · obtain ⟨sn, a₁, h₁, h₂⟩ := PRes.bind_ok h
    obtain ⟨u, a₂, h₃, h₄⟩ := PRes.bind_ok h₂
    cases h₄
    refine WeakExt.wtrans ?_ (weakExt_of_ext (lower_struct_fields_ext _ h₃))
    split at h₁
    · split at h₁
      · cases h₁; exact weakExt_node_set (by assumption) (by assumption)
      · exact PRes.noConfusion h₁
    · cases h₁; exact weakExt_add_register a _ _

/-- A successful `parse_enum_def` is a weak extension. -/
theorem parse_enum_def_weak {ed : EnumDefinition} {v : Nat} {a a' : Analyzer}
    (h : parse_enum_def ed a = .ok v a') : WeakExt a a' := by
  simp only [parse_enum_def] at h
  split at h
  · exact PRes.noConfusion h
  · split at h
    · split at h
      · cases h; exact weakExt_node_set (by assumption) (by assumption)
      · exact PRes.noConfusion h
    · cases h; exact weakExt_add_register a _ _

/-- A successful `parse_func_def` is a weak extension. -/
theorem parse_func_def_weak {fd : FunctionDefinition} {v : Nat} {a a' : Analyzer}
    (h : parse_func_def fd a = .ok v a') : WeakExt a a' := by
  simp only [parse_func_def] at h
  split at h
  · exact PRes.noConfusion h
  · obtain ⟨fn, a₁, h₁, h₂⟩ := PRes.bind_ok h
    obtain ⟨u₁, a₂, h₃, h₄⟩ := PRes.bind_ok h₂
    obtain ⟨u₂, a₃, h₅, h₆⟩ := PRes.bind_ok h₄
    have hstep : WeakExt a a₁ := by
      split at h₁
      · split at h₁
        · cases h₁; exact weakExt_node_set (by assumption) (by assumption)
        · exact PRes.noConfusion h₁
      · cases h₁; exact weakExt_add_register a _ _
    refine (hstep.wtrans (weakExt_of_ext (lower_func_params_ext _ h₃))).wtrans ?_
    refine (weakExt_of_ext (lower_func_returns_ext _ h₅)).wtrans ?_
    split at h₆
    · cases h₆; exact weakExt_of_ext (parse_ctx_statement_ext _ _ _ _)
    · cases h₆; exact WeakExt.wrefl _

/-- A successful `parse_var_def` is a weak extension. -/
theorem parse_var_def_weak {vd : VariableDefinition} {ic : Bool} {v : Nat} {a a' : Analyzer}
    (h : parse_var_def vd ic a = .ok v a') : WeakExt a a' := by
  simp only [parse_var_def] at h
  obtain ⟨var, a₁, h₁, h₂⟩ := PRes.bind_ok h
  obtain ⟨name, a₂, h₃, h₄⟩ := PRes.bind_ok h₂
  have ha₂ := VarNode_name_ok h₃
  subst ha₂
  cases h₄
  have hext := Var_new_ext h₁
  refine (weakExt_of_ext hext).wtrans ?_
  refine ⟨by simp [add_node], fun e he => he, fun w hw => ?_⟩
  obtain ⟨hvlt, hvtab⟩ := hw
  refine ⟨⟨by simp [add_node]; omega, fun p hp => ?_⟩, List.getElem?_append_left hvlt⟩
  rcases mem_ainsert hp with h' | h'
  · exact hvtab p h'
  · subst h'
    simp only [add_node]
    omega

/-- A successful `parse_err_def` is a weak extension. -/
theorem parse_err_def_weak {ed : ErrorDefinition} {v : Nat} {a a' : Analyzer}
    (h : parse_err_def ed a = .ok v a') : WeakExt a a' := by
  simp only [parse_err_def] at h
  obtain ⟨u, a₁, h₁, h₂⟩ := PRes.bind_ok h
  cases h₂
  exact (weakExt_of_ext (ext_add_node a _)).wtrans
    (weakExt_of_ext (lower_err_params_ext _ h₁))

/-- A successful `parse_ty_def` is a weak extension. -/
theorem parse_ty_def_weak {td : TypeDefinition} {v : Nat} {a a' : Analyzer}
    (h : parse_ty_def td a = .ok v a') : WeakExt a a' := by
  simp only [parse_ty_def] at h
  obtain ⟨ty, a₁, h₁, h₂⟩ := PRes.bind_ok h
  cases h₂
  exact (weakExt_of_ext (Ty_new_ext h₁)).wtrans (weakExt_of_ext (ext_add_node a₁ _))

/-- A successful contract-part loop is a weak extension. -/
theorem lower_contract_parts_weak :
    ∀ (ps : List ContractPart) {conNode : Nat} {u : Unit} {a a' : Analyzer},
      lower_contract_parts conNode ps a = .ok u a' → WeakExt a a'
  | [], conNode, u, a, a', h => by cases h; exact WeakExt.wrefl _
  | cpart :: rest, conNode, u, a, a', h => by
      simp only [lower_contract_parts] at h
      obtain ⟨u₁, a₁, h₁, h₂⟩ := PRes.bind_ok h
      refine WeakExt.wtrans ?_ (lower_contract_parts_weak rest h₂)
      cases cpart with
      | StructDefinition d =>
          obtain ⟨n, a₀, hp, hq⟩ := PRes.bind_ok h₁
          cases hq
          exact (parse_struct_def_weak hp).wtrans (weakExt_of_ext (ext_add_edge _ _ _ _))
      | EnumDefinition d =>
          obtain ⟨n, a₀, hp, hq⟩ := PRes.bind_ok h₁
          cases hq
          exact (parse_enum_def_weak hp).wtrans (weakExt_of_ext (ext_add_edge _ _ _ _))
      | ErrorDefinition d =>
          obtain ⟨n, a₀, hp, hq⟩ := PRes.bind_ok h₁
          cases hq
          exact (parse_err_def_weak hp).wtrans (weakExt_of_ext (ext_add_edge _ _ _ _))
      | VariableDefinition d =>
          obtain ⟨n, a₀, hp, hq⟩ := PRes.bind_ok h₁
          cases hq
          exact (parse_var_def_weak hp).wtrans (weakExt_of_ext (ext_add_edge _ _ _ _))
      | FunctionDefinition d =>
          obtain ⟨n, a₀, hp, hq⟩ := PRes.bind_ok h₁
          cases hq
          exact (parse_func_def_weak hp).wtrans (weakExt_of_ext (ext_add_edge _ _ _ _))
      | TypeDefinition d =>
          obtain ⟨n, a₀, hp, hq⟩ := PRes.bind_ok h₁
          cases hq
          exact (parse_ty_def_weak hp).wtrans (weakExt_of_ext (ext_add_edge _ _ _ _))
      | EventDefinition => exact PRes.noConfusion h₁
      | AnnotationDef => exact PRes.noConfusion h₁
      | Using => exact PRes.noConfusion h₁
      | StraySemicolon => exact PRes.noConfusion h₁

/-- A successful `parse_contract_def` is a weak extension. -/
theorem parse_contract_def_weak {cd : ContractDefinition} {v : Nat} {a a' : Analyzer}
    (h : parse_contract_def cd a = .ok v a') : WeakExt a a' := by
  simp only [parse_contract_def] at h
  obtain ⟨u, a₁, h₁, h₂⟩ := PRes.bind_ok h
  cases h₂
  exact (weakExt_of_ext (ext_add_node a _)).wtrans (lower_contract_parts_weak _ h₁)

/-- A successful `parse_source_unit_part` is a weak extension. -/
theorem parse_source_unit_part_weak {sup : SourceUnitPart} {file_no unit_part parent : Nat}
    {v : Nat} {a a' : Analyzer}
    (h : parse_source_unit_part sup file_no unit_part parent a = .ok v a') :
    WeakExt a a' := by
  simp only [parse_source_unit_part] at h
  obtain ⟨u, a₁, h₁, h₂⟩ := PRes.bind_ok h
  cases h₂
  refine WeakExt.wtrans
    (weakExt_of_ext ((ext_add_node a (Node.SourceUnitPart file_no unit_part)).etrans
      (ext_add_edge (add_node a (Node.SourceUnitPart file_no unit_part)).2
        (add_node a (Node.SourceUnitPart file_no unit_part)).1 parent Edge.Part))) ?_
  cases sup with
  | ContractDefinition d =>
      obtain ⟨n, a₀, hp, hq⟩ := PRes.bind_ok h₁
      cases hq
      exact (parse_contract_def_weak hp).wtrans (weakExt_of_ext (ext_add_edge _ _ _ _))
  | StructDefinition d =>
      obtain ⟨n, a₀, hp, hq⟩ := PRes.bind_ok h₁
      cases hq
      exact (parse_struct_def_weak hp).wtrans (weakExt_of_ext (ext_add_edge _ _ _ _))
  | EnumDefinition d =>
      obtain ⟨n, a₀, hp, hq⟩ := PRes.bind_ok h₁
      cases hq
      exact (parse_enum_def_weak hp).wtrans (weakExt_of_ext (ext_add_edge _ _ _ _))
  | ErrorDefinition d =>
      obtain ⟨n, a₀, hp, hq⟩ := PRes.bind_ok h₁
      cases hq
      exact (parse_err_def_weak hp).wtrans (weakExt_of_ext (ext_add_edge _ _ _ _))
  | VariableDefinition d =>
      obtain ⟨n, a₀, hp, hq⟩ := PRes.bind_ok h₁
      cases hq
      exact (parse_var_def_weak hp).wtrans (weakExt_of_ext (ext_add_edge _ _ _ _))
  | FunctionDefinition d =>
      obtain ⟨n, a₀, hp, hq⟩ := PRes.bind_ok h₁
      cases hq
      exact (parse_func_def_weak hp).wtrans (weakExt_of_ext (ext_add_edge _ _ _ _))
  | TypeDefinition d =>
      obtain ⟨n, a₀, hp, hq⟩ := PRes.bind_ok h₁
      cases hq
      exact (parse_ty_def_weak hp).wtrans (weakExt_of_ext (ext_add_edge _ _ _ _))
  | EventDefinition => exact PRes.noConfusion h₁
  | AnnotationDef => exact PRes.noConfusion h₁
  | Using => exact PRes.noConfusion h₁
  | StraySemicolon => exact PRes.noConfusion h₁
  | PragmaDirective => exact PRes.noConfusion h₁
  | ImportDirective => exact PRes.noConfusion h₁

/-- A successful source-unit part loop is a weak extension. -/
theorem parse_source_unit_parts_weak :
    ∀ (ps : List SourceUnitPart) {file_no parent unit_part : Nat} {u : Unit}
      {a a' : Analyzer},
      parse_source_unit_parts file_no parent unit_part ps a = .ok u a' → WeakExt a a'
  | [], _, _, _, u, a, a', h => by cases h; exact WeakExt.wrefl _
  | sup :: rest, file_no, parent, unit_part, u, a, a', h => by
      simp only [parse_source_unit_parts] at h
      obtain ⟨n, a₁, h₁, h₂⟩ := PRes.bind_ok h
      exact (parse_source_unit_part_weak h₁).wtrans (parse_source_unit_parts_weak rest h₂)

/-- Any sequence of public mutating operations is an append-only
extension. -/
theorem apply_ops_preserves : ∀ (ops : List GraphOp) (a : Analyzer),
    Preserves a (apply_ops a ops)
  | [], a => Preserves.refl a
  | op :: rest, a => by
      refine Preserves.trans ?_ (apply_ops_preserves rest (apply_op a op))
      cases op with
      | addN n => exact preserves_add_node a n
      | addE f t e => exact preserves_add_edge a f t e

/-! ### Claim theorems -/

/-- C5: the graph is append-only.  A handle returned by `add_node` still
addresses the very node that was stored, after any later sequence of
`add_node`/`add_edge` operations; no already-issued handle is ever rebound
to a different node by these operations; and no node or edge is removed
(the arena only grows and every old edge persists). -/
theorem C5_graph_append_only (a : Analyzer) (n : Node) (ops : List GraphOp) :
    node (apply_ops (add_node a n).2 ops) (add_node a n).1 = some n ∧
    (∀ i, i < (add_node a n).2.nodes.length →
        node (apply_ops (add_node a n).2 ops) i = node (add_node a n).2 i) ∧
    (add_node a n).2.nodes.length ≤ (apply_ops (add_node a n).2 ops).nodes.length ∧
    (∀ e, e ∈ (add_node a n).2.edges → e ∈ (apply_ops (add_node a n).2 ops).edges) := by
  obtain ⟨hlen, hcontent, hedges⟩ := apply_ops_preserves ops (add_node a n).2
  have hvalid : (add_node a n).1 < (add_node a n).2.nodes.length := by
    simp [add_node]
  have h0 : node (add_node a n).2 (add_node a n).1 = some n :=
    List.getElem?_concat_length a.nodes n
  exact ⟨(hcontent _ hvalid).trans h0, hcontent, hlen, hedges⟩

/-- Witness for C5 at a concrete graph and operation sequence. -/
theorem C5_graph_append_only_witness :
    node (apply_ops (add_node ⟨[], [], [], [], []⟩ Node.ContextFork).2
        [GraphOp.addN (Node.SourceUnit 7), GraphOp.addE 0 1 Edge.Part]) 0 =
      some Node.ContextFork ∧
    node (apply_ops (add_node ⟨[], [], [], [], []⟩ Node.ContextFork).2
        [GraphOp.addN (Node.SourceUnit 7), GraphOp.addE 0 1 Edge.Part]) 0 =
      node (add_node ⟨[], [], [], [], []⟩ Node.ContextFork).2 0 :=
  ⟨(C5_graph_append_only ⟨[], [], [], [], []⟩ Node.ContextFork
      [GraphOp.addN (Node.SourceUnit 7), GraphOp.addE 0 1 Edge.Part]).1,
   (C5_graph_append_only ⟨[], [], [], [], []⟩ Node.ContextFork
      [GraphOp.addN (Node.SourceUnit 7), GraphOp.addE 0 1 Edge.Part]).2.1 0
      (by decide)⟩

/-- C6: the `node`/`node_mut` accessors fail fatally (modelled as `none`)
exactly on handles absent from the graph; on every handle previously
returned by `add_node` they succeed and return the stored node. -/
theorem C6_node_accessors (a : Analyzer) (n nd : Node) (i : Nat) :
    node (add_node a n).2 (add_node a n).1 = some n ∧
    (a.nodes.length ≤ i → node a i = none ∧ node_set a i nd = none) ∧
    (i < a.nodes.length → (∃ m, node a i = some m) ∧ ∃ a', node_set a i nd = some a') := by
  refine ⟨List.getElem?_concat_length a.nodes n, fun hle => ⟨List.getElem?_eq_none hle, ?_⟩,
    fun hlt => ⟨⟨a.nodes[i], List.getElem?_eq_getElem hlt⟩, ?_⟩⟩
  · unfold node_set
    rw [if_neg (by omega)]
  · exact ⟨{ a with nodes := a.nodes.set i nd }, by unfold node_set; rw [if_pos hlt]⟩

/-- Witness for C6 at a concrete graph: a stale handle fails, a valid
handle succeeds. -/
theorem C6_node_accessors_witness :
    node (⟨[Node.ContextFork], [], [], [], []⟩ : Analyzer) 5 = none ∧
    ∃ m, node (⟨[Node.ContextFork], [], [], [], []⟩ : Analyzer) 0 = some m :=
  ⟨((C6_node_accessors ⟨[Node.ContextFork], [], [], [], []⟩
      Node.ContextFork Node.ContextFork 5).2.1 (by decide)).1,
   ((C6_node_accessors ⟨[Node.ContextFork], [], [], [], []⟩
      Node.ContextFork Node.ContextFork 0).2.2 (by decide)).1⟩

/-- C9: `builtin_or_add` is idempotent: the first call adds at most one
node and leaves the builtin registered, and a second call with an equal
builtin returns the same handle and the same state (no node added, table
untouched). -/
theorem C9_builtin_or_add_idempotent (a : Analyzer) (b : Builtin) :
    (builtin_or_add b a).2.nodes.length ≤ a.nodes.length + 1 ∧
    alookup (builtin_or_add b a).2.builtins b = some (builtin_or_add b a).1 ∧
    builtin_or_add b (builtin_or_add b a).2 = builtin_or_add b a := by
  cases hl : alookup a.builtins b with
  | some idx =>
      have h1 : builtin_or_add b a = (idx, a) := by
        simp [builtin_or_add, hl]
      rw [h1]
      exact ⟨Nat.le_succ _, hl, h1⟩
  | none =>
      have h1 : builtin_or_add b a =
          (a.nodes.length,
            { a with nodes := a.nodes ++ [Node.Builtin b],
                     builtins := ainsert a.builtins b a.nodes.length }) := by
        simp [builtin_or_add, hl, add_node]
      rw [h1]
      refine ⟨by simp, alookup_ainsert_self _ _ _, ?_⟩
      simp [builtin_or_add, alookup_ainsert_self]

/-- C2, failing input: the number literal with mantissa 2 and exponent 3
(source text `2e3`) denotes 2000, but the lowering stores the mantissa
raised to the exponent, `2 ^ 3 = 8`, in the `Concrete::Uint(256, _)` node
it adds. -/
theorem C2_number_literal_failing_input :
    parse_expr (.NumberLiteral 2 (some 3)) ⟨[], [], [], [], []⟩ =
      .ok 0 ⟨[Node.Concrete (Concrete.Uint 256 (2 ^ 3))], [], [], [], []⟩ ∧
    (2 ^ 3 : Nat) = 8 ∧ (2 * 10 ^ 3 : Nat) = 2000 ∧ (8 : Nat) ≠ 2000 := by
  refine ⟨?_, by norm_num, by norm_num, by norm_num⟩
  rfl

/-- C7: lowering an identifier expression returns the registered handle
unchanged when the name is known; otherwise it adds exactly one
`Unresolved` placeholder node, registers it, and returns its handle — so a
second parse of the same still-undeclared identifier returns the same
handle and leaves the state untouched. -/
theorem C7_identifier_placeholder (a : Analyzer) (ident : Identifier) :
    (∀ idx, alookup a.userTypes ident.name = some idx →
        parse_expr (.Variable ident) a = .ok idx a) ∧
    (alookup a.userTypes ident.name = none →
        parse_expr (.Variable ident) a =
          .ok a.nodes.length
            { a with nodes := a.nodes ++ [Node.Unresolved ident],
                     userTypes := ainsert a.userTypes ident.name a.nodes.length } ∧
        parse_expr (.Variable ident)
            { a with nodes := a.nodes ++ [Node.Unresolved ident],
                     userTypes := ainsert a.userTypes ident.name a.nodes.length } =
          .ok a.nodes.length
            { a with nodes := a.nodes ++ [Node.Unresolved ident],
                     userTypes := ainsert a.userTypes ident.name a.nodes.length }) := by
  refine ⟨fun idx h => by simp [parse_expr, h], fun h => ⟨by simp [parse_expr, h, add_node], ?_⟩⟩
  have hself : alookup (ainsert a.userTypes ident.name a.nodes.length) ident.name =
      some a.nodes.length := alookup_ainsert_self _ _ _
  simp [parse_expr, hself]

/-- Witness for C7: parsing a fresh identifier in the empty analyzer
creates and registers placeholder handle 0. -/
theorem C7_identifier_placeholder_witness :
    parse_expr (.Variable ⟨"y"⟩) ⟨[], [], [], [], []⟩ =
      .ok 0 { (⟨[], [], [], [], []⟩ : Analyzer) with
          nodes := [] ++ [Node.Unresolved ⟨"y"⟩],
          userTypes := ainsert [] "y" 0 } :=
  ((C7_identifier_placeholder ⟨[], [], [], [], []⟩ ⟨"y"⟩).2 rfl).1

/-- C10: the expression shapes `parse_expr` has no rule for — a
non-builtin type expression, an array subscript with an index, and the
catch-all for every remaining kind — return the sentinel handle 0 rather
than a panic or a fresh placeholder node. -/
theorem C10_no_rule_returns_sentinel :
    (∀ (a : Analyzer) (ty : SolType), Builtin.try_from_ty ty = none →
        parse_expr (.TypeExpr ty) a = .ok 0 a) ∧
    (∀ (a a₁ a₂ : Analyzer) (t i : Expression) (v₁ v₂ : Nat),
        parse_expr t a = .ok v₁ a₁ → parse_expr i a₁ = .ok v₂ a₂ →
        parse_expr (.ArraySubscript t (some i)) a = .ok 0 a₂) ∧
    (∀ a : Analyzer, parse_expr .Other a = .ok 0 a) := by
  refine ⟨fun a ty h => by simp [parse_expr, h],
    fun a a₁ a₂ t i v₁ v₂ h₁ h₂ => ?_, fun a => rfl⟩
  simp only [parse_expr, h₁, PRes.bind, h₂]

/-- Witness for C10: a mapping type expression and an indexed array
subscript both return handle 0 in the empty analyzer. -/
theorem C10_no_rule_returns_sentinel_witness :
    parse_expr (.TypeExpr .Mapping) ⟨[], [], [], [], []⟩ = .ok 0 ⟨[], [], [], [], []⟩ ∧
    parse_expr (.ArraySubscript .Other (some .Other)) ⟨[], [], [], [], []⟩ =
      .ok 0 ⟨[], [], [], [], []⟩ :=
  ⟨C10_no_rule_returns_sentinel.1 ⟨[], [], [], [], []⟩ .Mapping rfl,
   C10_no_rule_returns_sentinel.2.1 ⟨[], [], [], [], []⟩ ⟨[], [], [], [], []⟩
     ⟨[], [], [], [], []⟩ .Other .Other 0 0 rfl rfl⟩

/-- C3, counterexample: lowering an event definition at source-unit level
hits `todo!()` — a fatal "not yet implemented" panic — instead of
producing an unresolved/deferred node and continuing. -/
theorem C3_counterexample :
    parse_source_unit_part .EventDefinition 0 0 0 ⟨[], [], [], [], []⟩ =
      .fatal "not yet implemented"
        ⟨[Node.SourceUnitPart 0 0], [(0, 0, Edge.Part)], [], [], []⟩ := rfl

/-- C3, amended: every AST shape the lowering does not support — event
definitions, annotations, using-directives, stray semicolons at both
source-unit and contract level, and pragma and import directives at
source-unit level — aborts the lowering with a fatal "not yet
implemented" panic (after the `SourceUnitPart` node and its `Part` edge
were already added, at source-unit level); a hard failure of the external
parser is likewise fatal, carrying the parser's diagnostic. -/
theorem C3_unsupported_shapes_abort (a : Analyzer)
    (file_no unit_part parent conNode : Nat) (rest : List ContractPart) (e : String) :
    parse_source_unit_part .EventDefinition file_no unit_part parent a =
      .fatal "not yet implemented"
        (add_edge (add_node a (Node.SourceUnitPart file_no unit_part)).2
          (add_node a (Node.SourceUnitPart file_no unit_part)).1 parent Edge.Part) ∧
    parse_source_unit_part .AnnotationDef file_no unit_part parent a =
      .fatal "not yet implemented"
        (add_edge (add_node a (Node.SourceUnitPart file_no unit_part)).2
          (add_node a (Node.SourceUnitPart file_no unit_part)).1 parent Edge.Part) ∧
    parse_source_unit_part .Using file_no unit_part parent a =
      .fatal "not yet implemented"
        (add_edge (add_node a (Node.SourceUnitPart file_no unit_part)).2
          (add_node a (Node.SourceUnitPart file_no unit_part)).1 parent Edge.Part) ∧
    parse_source_unit_part .StraySemicolon file_no unit_part parent a =
      .fatal "not yet implemented"
        (add_edge (add_node a (Node.SourceUnitPart file_no unit_part)).2
          (add_node a (Node.SourceUnitPart file_no unit_part)).1 parent Edge.Part) ∧
    parse_source_unit_part .PragmaDirective file_no unit_part parent a =
      .fatal "not yet implemented"
        (add_edge (add_node a (Node.SourceUnitPart file_no unit_part)).2
          (add_node a (Node.SourceUnitPart file_no unit_part)).1 parent Edge.Part) ∧
    parse_source_unit_part .ImportDirective file_no unit_part parent a =
      .fatal "not yet implemented"
        (add_edge (add_node a (Node.SourceUnitPart file_no unit_part)).2
          (add_node a (Node.SourceUnitPart file_no unit_part)).1 parent Edge.Part) ∧
    lower_contract_parts conNode (.EventDefinition :: rest) a =
      .fatal "not yet implemented" a ∧
    lower_contract_parts conNode (.AnnotationDef :: rest) a =
      .fatal "not yet implemented" a ∧
    lower_contract_parts conNode (.Using :: rest) a =
      .fatal "not yet implemented" a ∧
    lower_contract_parts conNode (.StraySemicolon :: rest) a =
      .fatal "not yet implemented" a ∧
    parse (.error e) file_no a = .fatal e a :=
  ⟨rfl, rfl, rfl, rfl, rfl, rfl, rfl, rfl, rfl, rfl, rfl⟩

/-- C4, counterexample: on a source whose unit contains a pragma directive
the external parser succeeds, yet `parse` does not return a handle — the
lowering aborts on the unsupported pragma, after the graph already gained
the `SourceUnit` and `SourceUnitPart` nodes of the failed input. -/
theorem C4_counterexample :
    parse (.ok ⟨[.PragmaDirective]⟩) 0 ⟨[], [], [], [], []⟩ =
      .fatal "not yet implemented"
        ⟨[Node.SourceUnit 0, Node.SourceUnitPart 0 0], [(1, 0, Edge.Part)],
          [], [], []⟩ := rfl

/-- C4, amended: when the external parser fails, `parse` aborts fatally
carrying the parser's diagnostic and the analyzer is returned untouched
(in particular the graph gains no node); when the parser succeeds and the
lowering runs to completion, the returned value is the handle of the
`SourceUnit` node freshly added at entry — provided every name-table
binding points into the arena (well-formedness the real analyzer
maintains from its empty initial state). -/
theorem C4_parse_contract (a : Analyzer) (file_no : Nat) :
    (∀ e, parse (.error e) file_no a = .fatal e a) ∧
    (∀ (su : SourceUnit) (v : Nat) (a' : Analyzer),
        (∀ p ∈ a.userTypes, p.2 < a.nodes.length) →
        parse (.ok su) file_no a = .ok v a' →
        v = a.nodes.length ∧ node a' v = some (Node.SourceUnit file_no)) := by
  refine ⟨fun e => rfl, fun su v a' hwf h => ?_⟩
  simp only [parse] at h
  obtain ⟨u, a₁, h₁, h₂⟩ := PRes.bind_ok h
  simp only [parse_source_unit] at h₁
  have hW : WeakExt (add_node a (Node.SourceUnit file_no)).2 a₁ :=
    parse_source_unit_parts_weak su.parts h₁
  cases h₂
  have hAv : AvoidsV a.nodes.length (add_node a (Node.SourceUnit file_no)).2 := by
    constructor
    · simp [add_node]
    · intro p hp
      have := hwf p hp
      omega
  obtain ⟨hAv', hcontent⟩ := hW.2.2 _ hAv
  refine ⟨rfl, ?_⟩
  show a'.nodes[a.nodes.length]? = some (Node.SourceUnit file_no)
  rw [hcontent]
  exact List.getElem?_concat_length a.nodes _

/-- `VarNode.name` at a freshly added `Var` node reads that node's name
field. -/
theorem VarNode_name_at_fresh (a : Analyzer) (var : Var) :
    VarNode.name (add_node a (Node.Var var)).1 (add_node a (Node.Var var)).2 =
      match var.name with
      | some ident => .ok ident.name (add_node a (Node.Var var)).2
      | none => .fatal "Var was not named" (add_node a (Node.Var var)).2 := by
  have hnode : node (add_node a (Node.Var var)).2 (add_node a (Node.Var var)).1 =
      some (Node.Var var) := List.getElem?_concat_length a.nodes _
  unfold VarNode.name
  rw [hnode]

/-- A registered placeholder is rewritten in place by `parse_struct_def`:
the registered handle is returned and afterwards holds the struct node. -/
theorem parse_struct_def_rewrites {sd : StructDefinition} {a : Analyzer}
    {ident : Identifier} {n v : Nat} {a' : Analyzer}
    (hname : (Struct.from sd).name = some ident)
    (hl : alookup a.userTypes ident.name = some n)
    (hlt : n < a.nodes.length)
    (h : parse_struct_def sd a = .ok v a') :
    v = n ∧ node a' n = some (Node.Struct (Struct.from sd)) := by
  have hset : node_set a n (Node.Struct (Struct.from sd)) =
      some { a with nodes := a.nodes.set n (Node.Struct (Struct.from sd)) } := by
    unfold node_set
    rw [if_pos hlt]
  simp only [parse_struct_def, hname, hl, hset, PRes.bind] at h
  obtain ⟨u, a₂, h₃, h₄⟩ := PRes.bind_ok h
  cases h₄
  have hext := lower_struct_fields_ext sd.fields h₃
  refine ⟨rfl, ?_⟩
  have hc : ({ a with nodes := a.nodes.set n (Node.Struct (Struct.from sd)) } :
      Analyzer).nodes[n]? = some (Node.Struct (Struct.from sd)) :=
    List.getElem?_set_eq_of_lt _ hlt
  have hlt' : n < ({ a with nodes := a.nodes.set n (Node.Struct (Struct.from sd)) } :
      Analyzer).nodes.length := by
    simpa using hlt
  show a'.nodes[n]? = some (Node.Struct (Struct.from sd))
  rw [hext.1.2.1 n hlt']
  exact hc

/-- With no entry for the name, `parse_struct_def` adds a fresh node and
registers it. -/
theorem parse_struct_def_fresh {sd : StructDefinition} {a : Analyzer}
    {ident : Identifier} {v : Nat} {a' : Analyzer}
    (hname : (Struct.from sd).name = some ident)
    (hl : alookup a.userTypes ident.name = none)
    (h : parse_struct_def sd a = .ok v a') :
    v = a.nodes.length ∧ node a' v = some (Node.Struct (Struct.from sd)) ∧
    alookup a'.userTypes ident.name = some v := by
  simp only [parse_struct_def, hname, hl, PRes.bind] at h
  obtain ⟨u, a₂, h₃, h₄⟩ := PRes.bind_ok h
  cases h₄
  have hext := lower_struct_fields_ext sd.fields h₃
  refine ⟨rfl, ?_, ?_⟩
  · have hlt' : a.nodes.length < (a.nodes ++ [Node.Struct (Struct.from sd)]).length := by
      simp
    show a'.nodes[a.nodes.length]? = some (Node.Struct (Struct.from sd))
    rw [hext.1.2.1 _ hlt']
    exact List.getElem?_concat_length a.nodes _
  · exact hext.2.2 _ _ (alookup_ainsert_self _ _ _)

/-- A registered placeholder is rewritten in place by `parse_enum_def`. -/
theorem parse_enum_def_rewrites {ed : EnumDefinition} {a : Analyzer}
    {ident : Identifier} {n v : Nat} {a' : Analyzer}
    (hname : (Enum.from ed).name = some ident)
    (hl : alookup a.userTypes ident.name = some n)
    (hlt : n < a.nodes.length)
    (h : parse_enum_def ed a = .ok v a') :
    v = n ∧ node a' n = some (Node.Enum (Enum.from ed)) := by
  have hset : node_set a n (Node.Enum (Enum.from ed)) =
      some { a with nodes := a.nodes.set n (Node.Enum (Enum.from ed)) } := by
    unfold node_set
    rw [if_pos hlt]
  simp only [parse_enum_def, hname, hl, hset] at h
  cases h
  exact ⟨rfl, List.getElem?_set_eq_of_lt _ hlt⟩

/-- With no entry for the name, `parse_enum_def` adds a fresh node and
registers it. -/
theorem parse_enum_def_fresh {ed : EnumDefinition} {a : Analyzer}
    {ident : Identifier} {v : Nat} {a' : Analyzer}
    (hname : (Enum.from ed).name = some ident)
    (hl : alookup a.userTypes ident.name = none)
    (h : parse_enum_def ed a = .ok v a') :
    v = a.nodes.length ∧ node a' v = some (Node.Enum (Enum.from ed)) ∧
    alookup a'.userTypes ident.name = some v := by
  simp only [parse_enum_def, hname, hl] at h
  cases h
  exact ⟨rfl, List.getElem?_concat_length a.nodes _, alookup_ainsert_self _ _ _⟩

/-- A registered placeholder is rewritten in place by `parse_func_def`. -/
theorem parse_func_def_rewrites {fd : FunctionDefinition} {a : Analyzer}
    {ident : Identifier} {n v : Nat} {a' : Analyzer}
    (hname : (Function.from fd).name = some ident)
    (hl : alookup a.userTypes ident.name = some n)
    (hlt : n < a.nodes.length)
    (h : parse_func_def fd a = .ok v a') :
    v = n ∧ node a' n = some (Node.Function (Function.from fd)) := by
  have hset : node_set a n (Node.Function (Function.from fd)) =
      some { a with nodes := a.nodes.set n (Node.Function (Function.from fd)) } := by
    unfold node_set
    rw [if_pos hlt]
  simp only [parse_func_def, hname, hl, hset, PRes.bind] at h
  obtain ⟨u₁, a₂, h₃, h₄⟩ := PRes.bind_ok h
  obtain ⟨u₂, a₃, h₅, h₆⟩ := PRes.bind_ok h₄
  have hext : Ext { a with nodes := a.nodes.set n (Node.Function (Function.from fd)) } a' := by
    refine ((lower_func_params_ext fd.params h₃).etrans
      (lower_func_returns_ext fd.returns h₅)).etrans ?_
    split at h₆
    · cases h₆
      exact parse_ctx_statement_ext _ _ _ _
    · cases h₆
      exact Ext.erefl _
  have hv : v = n := by
    split at h₆ <;> cases h₆ <;> rfl
  refine ⟨hv, ?_⟩
  have hc : ({ a with nodes := a.nodes.set n (Node.Function (Function.from fd)) } :
      Analyzer).nodes[n]? = some (Node.Function (Function.from fd)) :=
    List.getElem?_set_eq_of_lt _ hlt
  have hlt' : n < ({ a with nodes := a.nodes.set n (Node.Function (Function.from fd)) } :
      Analyzer).nodes.length := by
    simpa using hlt
  show a'.nodes[n]? = some (Node.Function (Function.from fd))
  rw [hext.1.2.1 n hlt']
  exact hc

/-- With no entry for the name, `parse_func_def` adds a fresh node and
registers it. -/
theorem parse_func_def_fresh {fd : FunctionDefinition} {a : Analyzer}
    {ident : Identifier} {v : Nat} {a' : Analyzer}
    (hname : (Function.from fd).name = some ident)
    (hl : alookup a.userTypes ident.name = none)
    (h : parse_func_def fd a = .ok v a') :
    v = a.nodes.length ∧ node a' v = some (Node.Function (Function.from fd)) ∧
    alookup a'.userTypes ident.name = some v := by
  simp only [parse_func_def, hname, hl, PRes.bind] at h
  obtain ⟨u₁, a₂, h₃, h₄⟩ := PRes.bind_ok h
  obtain ⟨u₂, a₃, h₅, h₆⟩ := PRes.bind_ok h₄
  have hext : Ext { (add_node a (Node.Function (Function.from fd))).2 with
      userTypes := ainsert (add_node a (Node.Function (Function.from fd))).2.userTypes
        ident.name (add_node a (Node.Function (Function.from fd))).1 } a' := by
    refine ((lower_func_params_ext fd.params h₃).etrans
      (lower_func_returns_ext fd.returns h₅)).etrans ?_
    split at h₆
    · cases h₆
      exact parse_ctx_statement_ext _ _ _ _
    · cases h₆
      exact Ext.erefl _
  have hv : v = a.nodes.length := by
    split at h₆ <;> cases h₆ <;> rfl
  subst hv
  refine ⟨rfl, ?_, ?_⟩
  · have hlt' : a.nodes.length <
        (a.nodes ++ [Node.Function (Function.from fd)]).length := by
      simp
    show a'.nodes[a.nodes.length]? = some (Node.Function (Function.from fd))
    rw [hext.1.2.1 _ hlt']
    exact List.getElem?_concat_length a.nodes _
  · exact hext.2.2 _ _ (alookup_ainsert_self _ _ _)

/-- `parse_var_def` always allocates a fresh node and (re-)registers the
variable's name, pointing it at the fresh handle. -/
theorem parse_var_def_fresh_always {vd : VariableDefinition} {ic : Bool} {v : Nat}
    {a a' : Analyzer} (h : parse_var_def vd ic a = .ok v a') :
    a.nodes.length ≤ v ∧
    ∃ ident tyIdx, vd.name = some ident ∧
      node a' v = some (Node.Var ⟨tyIdx, some ident, ic⟩) ∧
      alookup a'.userTypes ident.name = some v := by
  simp only [parse_var_def] at h
  obtain ⟨var, a₁, h₁, h₂⟩ := PRes.bind_ok h
  obtain ⟨nm, a₂, h₃, h₄⟩ := PRes.bind_ok h₂
  have ha₂ := VarNode_name_ok h₃
  subst ha₂
  cases h₄
  obtain ⟨tyIdx, aMid, hpe, hvn⟩ := PRes.bind_ok h₁
  cases hvn
  rw [VarNode_name_at_fresh] at h₃
  cases hvd : vd.name with
  | none =>
      rw [hvd] at h₃
      exact PRes.noConfusion h₃
  | some ident =>
      rw [hvd] at h₃
      cases h₃
      refine ⟨(parse_expr_ext vd.ty hpe).1.1, ident, tyIdx, rfl, ?_, ?_⟩
      · exact List.getElem?_concat_length a₁.nodes _
      · exact alookup_ainsert_self _ _ _

/-- `parse_err_def` always allocates a fresh node; the name table never
points at it (given it is well formed on entry). -/
theorem parse_err_def_never_registers {ed : ErrorDefinition} {v : Nat} {a a' : Analyzer}
    (hwf : ∀ p ∈ a.userTypes, p.2 < a.nodes.length)
    (h : parse_err_def ed a = .ok v a') :
    v = a.nodes.length ∧ node a' v = some (Node.Error (Error.from ed)) ∧
    ∀ name, alookup a'.userTypes name ≠ some v := by
  simp only [parse_err_def] at h
  obtain ⟨u, a₁, h₁, h₂⟩ := PRes.bind_ok h
  cases h₂
  have hext := lower_err_params_ext ed.fields h₁
  have hAv : AvoidsV a.nodes.length (add_node a (Node.Error (Error.from ed))).2 := by
    refine ⟨by simp [add_node], fun p hp => ?_⟩
    have := hwf p hp
    omega
  obtain ⟨hAv', _⟩ := (weakExt_of_ext hext).2.2 _ hAv
  refine ⟨rfl, ?_, ?_⟩
  · have hlt' : a.nodes.length <
        (a.nodes ++ [Node.Error (Error.from ed)]).length := by
      simp
    show a'.nodes[a.nodes.length]? = some (Node.Error (Error.from ed))
    rw [hext.1.2.1 _ hlt']
    exact List.getElem?_concat_length a.nodes _
  · intro name hname
    exact hAv'.2 _ (alookup_mem hname) rfl

/-- `parse_ty_def` always allocates a fresh node; the name table never
points at it (given it is well formed on entry). -/
theorem parse_ty_def_never_registers {td : TypeDefinition} {v : Nat} {a a' : Analyzer}
    (hwf : ∀ p ∈ a.userTypes, p.2 < a.nodes.length)
    (h : parse_ty_def td a = .ok v a') :
    a.nodes.length ≤ v ∧ (∃ tyIdx, node a' v = some (Node.Ty ⟨tyIdx, td.name⟩)) ∧
    ∀ name, alookup a'.userTypes name ≠ some v := by
  simp only [parse_ty_def] at h
  obtain ⟨ty, a₁, h₁, h₂⟩ := PRes.bind_ok h
  cases h₂
  obtain ⟨tyIdx, aMid, hpe, htn⟩ := PRes.bind_ok h₁
  cases htn
  have hext := parse_expr_ext td.ty hpe
  refine ⟨hext.1.1, ⟨tyIdx, List.getElem?_concat_length a₁.nodes _⟩, ?_⟩
  intro name hname
  have hv : (add_node a₁ (Node.Ty ⟨tyIdx, td.name⟩)).1 = a₁.nodes.length := rfl
  have hmem := alookup_mem hname
  rcases hext.2.1 _ hmem with h' | h'
  · have h1 := hwf _ h'
    have h2 := hext.1.1
    simp only [hv] at h1
    omega
  · have h2 := h'.2
    simp only [hv] at h2
    omega

/-- Witness for C4 at a concrete run: parsing an empty source unit in the
empty analyzer returns handle 0 holding the `SourceUnit` node. -/
theorem C4_parse_contract_witness :
    (0 : Nat) = (⟨[], [], [], [], []⟩ : Analyzer).nodes.length ∧
    node ⟨[Node.SourceUnit 5], [], [], [], []⟩ 0 = some (Node.SourceUnit 5) :=
  (C4_parse_contract ⟨[], [], [], [], []⟩ 5).2 ⟨[]⟩ 0
    ⟨[Node.SourceUnit 5], [], [], [], []⟩ (by simp) rfl

/-- C1, counterexample: with the name "x" registered as the placeholder at
handle 0, `parse_var_def` on a variable named "x" does not rewrite the
placeholder and reuse the handle — it allocates the fresh node 1, leaves
node 0 an `Unresolved` placeholder, and re-points the table entry at 1. -/
theorem C1_counterexample :
    alookup ([("x", 0)] : List (String × Nat)) "x" = some 0 ∧
    parse_var_def ⟨Expression.Other, some ⟨"x"⟩⟩ false
        ⟨[Node.Unresolved ⟨"x"⟩], [], [], [], [("x", 0)]⟩ =
      .ok 1 ⟨[Node.Unresolved ⟨"x"⟩, Node.Var ⟨0, some ⟨"x"⟩, false⟩],
        [], [], [], [("x", 1)]⟩ ∧
    (1 : Nat) ≠ 0 :=
  ⟨rfl, rfl, by decide⟩

/-- C1, amended: only `parse_struct_def`, `parse_enum_def` and
`parse_func_def` rewrite a registered placeholder in place and reuse its
handle, creating and registering a fresh node only when the name is
absent.  `parse_var_def` always allocates a fresh node and re-points the
name-table entry at it; `parse_err_def` and `parse_ty_def` always allocate
a fresh node and never register it (assuming the name table well formed,
as the analyzer maintains from its empty initial state). -/
theorem C1_amended :
    (∀ (sd : StructDefinition) (a : Analyzer) (ident : Identifier) (n v : Nat)
        (a' : Analyzer),
        (Struct.from sd).name = some ident →
        alookup a.userTypes ident.name = some n → n < a.nodes.length →
        parse_struct_def sd a = .ok v a' →
        v = n ∧ node a' n = some (Node.Struct (Struct.from sd))) ∧
    (∀ (sd : StructDefinition) (a : Analyzer) (ident : Identifier) (v : Nat)
        (a' : Analyzer),
        (Struct.from sd).name = some ident →
        alookup a.userTypes ident.name = none →
        parse_struct_def sd a = .ok v a' →
        v = a.nodes.length ∧ node a' v = some (Node.Struct (Struct.from sd)) ∧
        alookup a'.userTypes ident.name = some v) ∧
    (∀ (ed : EnumDefinition) (a : Analyzer) (ident : Identifier) (n v : Nat)
        (a' : Analyzer),
        (Enum.from ed).name = some ident →
        alookup a.userTypes ident.name = some n → n < a.nodes.length →
        parse_enum_def ed a = .ok v a' →
        v = n ∧ node a' n = some (Node.Enum (Enum.from ed))) ∧
    (∀ (ed : EnumDefinition) (a : Analyzer) (ident : Identifier) (v : Nat)
        (a' : Analyzer),
        (Enum.from ed).name = some ident →
        alookup a.userTypes ident.name = none →
        parse_enum_def ed a = .ok v a' →
        v = a.nodes.length ∧ node a' v = some (Node.Enum (Enum.from ed)) ∧
        alookup a'.userTypes ident.name = some v) ∧
    (∀ (fd : FunctionDefinition) (a : Analyzer) (ident : Identifier) (n v : Nat)
        (a' : Analyzer),
        (Function.from fd).name = some ident →
        alookup a.userTypes ident.name = some n → n < a.nodes.length →
        parse_func_def fd a = .ok v a' →
        v = n ∧ node a' n = some (Node.Function (Function.from fd))) ∧
    (∀ (fd : FunctionDefinition) (a : Analyzer) (ident : Identifier) (v : Nat)
        (a' : Analyzer),
        (Function.from fd).name = some ident →
        alookup a.userTypes ident.name = none →
        parse_func_def fd a = .ok v a' →
        v = a.nodes.length ∧ node a' v = some (Node.Function (Function.from fd)) ∧
        alookup a'.userTypes ident.name = some v) ∧
    (∀ (vd : VariableDefinition) (ic : Bool) (v : Nat) (a a' : Analyzer),
        parse_var_def vd ic a = .ok v a' →
        a.nodes.length ≤ v ∧
        ∃ ident tyIdx, vd.name = some ident ∧
          node a' v = some (Node.Var ⟨tyIdx, some ident, ic⟩) ∧
          alookup a'.userTypes ident.name = some v) ∧
    (∀ (ed : ErrorDefinition) (v : Nat) (a a' : Analyzer),
        (∀ p ∈ a.userTypes, p.2 < a.nodes.length) →
        parse_err_def ed a = .ok v a' →
        v = a.nodes.length ∧ node a' v = some (Node.Error (Error.from ed)) ∧
        ∀ name, alookup a'.userTypes name ≠ some v) ∧
    (∀ (td : TypeDefinition) (v : Nat) (a a' : Analyzer),
        (∀ p ∈ a.userTypes, p.2 < a.nodes.length) →
        parse_ty_def td a = .ok v a' →
        a.nodes.length ≤ v ∧ (∃ tyIdx, node a' v = some (Node.Ty ⟨tyIdx, td.name⟩)) ∧
        ∀ name, alookup a'.userTypes name ≠ some v) :=
  ⟨fun _ _ _ _ _ _ h1 h2 h3 h4 => parse_struct_def_rewrites h1 h2 h3 h4,
   fun _ _ _ _ _ h1 h2 h3 => parse_struct_def_fresh h1 h2 h3,
   fun _ _ _ _ _ _ h1 h2 h3 h4 => parse_enum_def_rewrites h1 h2 h3 h4,
   fun _ _ _ _ _ h1 h2 h3 => parse_enum_def_fresh h1 h2 h3,
   fun _ _ _ _ _ _ h1 h2 h3 h4 => parse_func_def_rewrites h1 h2 h3 h4,
   fun _ _ _ _ _ h1 h2 h3 => parse_func_def_fresh h1 h2 h3,
   fun _ _ _ _ _ h => parse_var_def_fresh_always h,
   fun _ _ _ _ h1 h2 => parse_err_def_never_registers h1 h2,
   fun _ _ _ _ h1 h2 => parse_ty_def_never_registers h1 h2⟩

/-- The struct-field loop gives every field its own fresh node and a
`Field` containment edge to the owner; the child handles are strictly
increasing, matching declaration order. -/
theorem lower_struct_fields_spec :
    ∀ (fs : List VariableDeclaration) {owner : Nat} {u : Unit} {a a' : Analyzer},
      lower_struct_fields owner fs a = .ok u a' →
      ∃ hs : List Nat,
        hs.length = fs.length ∧
        List.Chain' (· < ·) hs ∧
        (∀ h ∈ hs, a.nodes.length ≤ h ∧ h < a'.nodes.length) ∧
        (∀ (j : Nat) (f : VariableDeclaration), fs[j]? = some f →
            ∃ h fld, hs[j]? = some h ∧
            Field.name fld = f.name ∧
            node a' h = some (Node.Field fld) ∧
            (h, owner, Edge.Field) ∈ a'.edges)
  | [], owner, u, a, a', h => by
      cases h
      exact ⟨[], rfl, List.chain'_nil, by simp, by simp⟩
  | f :: rest, owner, u, a, a', h => by
      simp only [lower_struct_fields] at h
      obtain ⟨fld, a₁, h₁, h₂⟩ := PRes.bind_ok h
      obtain ⟨hs', hlen, hchain, hbounds, hidx⟩ := lower_struct_fields_spec rest h₂
      obtain ⟨tyIdx, a₀, hpe, hfld⟩ := PRes.bind_ok h₁
      cases hfld
      have hrext := lower_struct_fields_ext rest h₂
      have hpext := parse_expr_ext f.ty hpe
      refine ⟨a₁.nodes.length :: hs', by simp [hlen], ?_, ?_, ?_⟩
      · refine List.chain'_cons'.mpr ⟨fun y hy => ?_, hchain⟩
        have hmem := List.mem_of_mem_head? hy
        have := (hbounds y hmem).1
        simp [add_edge, add_node] at this
        omega
      · intro h hmem
        rcases List.mem_cons.mp hmem with rfl | hmem'
        · refine ⟨hpext.1.1, ?_⟩
          have := hrext.1.1
          simp [add_edge, add_node] at this
          omega
        · have hb := hbounds h hmem'
          have hb1 := hb.1
          simp [add_edge, add_node] at hb1
          have hp1 := hpext.1.1
          exact ⟨by omega, hb.2⟩
      · intro j g hg
        cases j with
        | zero =>
            have hgf : g = f := by
              rw [List.getElem?_cons_zero] at hg
              exact (Option.some.inj hg).symm
            subst hgf
            refine ⟨a₁.nodes.length, ⟨tyIdx, g.name⟩, List.getElem?_cons_zero, rfl, ?_, ?_⟩
            · have hlt : a₁.nodes.length <
                  (add_edge (add_node a₁ (Node.Field ⟨tyIdx, g.name⟩)).2
                    (add_node a₁ (Node.Field ⟨tyIdx, g.name⟩)).1 owner
                    Edge.Field).nodes.length := by
                simp [add_edge, add_node]
              show a'.nodes[a₁.nodes.length]? = some (Node.Field ⟨tyIdx, g.name⟩)
              rw [hrext.1.2.1 _ hlt]
              exact List.getElem?_concat_length a₁.nodes _
            · refine hrext.1.2.2 _ ?_
              show _ ∈ a₁.edges ++ [(a₁.nodes.length, owner, Edge.Field)]
              simp
        | succ j' =>
            rw [List.getElem?_cons_succ] at hg
            obtain ⟨h, fl, hhs, hname, hnode, hedge⟩ := hidx j' g hg
            exact ⟨h, fl, by rw [List.getElem?_cons_succ]; exact hhs, hname, hnode, hedge⟩

/-- The error-parameter loop gives every parameter its own fresh node and
an `ErrorParam` containment edge to the owner, handles strictly increasing
in declaration order. -/
theorem lower_err_params_spec :
    ∀ (fs : List ErrorParameter) {owner : Nat} {u : Unit} {a a' : Analyzer},
      lower_err_params owner fs a = .ok u a' →
      ∃ hs : List Nat,
        hs.length = fs.length ∧
        List.Chain' (· < ·) hs ∧
        (∀ h ∈ hs, a.nodes.length ≤ h ∧ h < a'.nodes.length) ∧
        (∀ (j : Nat) (f : ErrorParameter), fs[j]? = some f →
            ∃ h param, hs[j]? = some h ∧
            ErrorParam.name param = f.name ∧
            node a' h = some (Node.ErrorParam param) ∧
            (h, owner, Edge.ErrorParam) ∈ a'.edges)
  | [], owner, u, a, a', h => by
      cases h
      exact ⟨[], rfl, List.chain'_nil, by simp, by simp⟩
  | f :: rest, owner, u, a, a', h => by
      simp only [lower_err_params] at h
      obtain ⟨par, a₁, h₁, h₂⟩ := PRes.bind_ok h
      obtain ⟨hs', hlen, hchain, hbounds, hidx⟩ := lower_err_params_spec rest h₂
      obtain ⟨tyIdx, a₀, hpe, hpar⟩ := PRes.bind_ok h₁
      cases hpar
      have hrext := lower_err_params_ext rest h₂
      have hpext := parse_expr_ext f.ty hpe
      refine ⟨a₁.nodes.length :: hs', by simp [hlen], ?_, ?_, ?_⟩
      · refine List.chain'_cons'.mpr ⟨fun y hy => ?_, hchain⟩
        have hmem := List.mem_of_mem_head? hy
        have := (hbounds y hmem).1
        simp [add_edge, add_node] at this
        omega
      · intro h hmem
        rcases List.mem_cons.mp hmem with rfl | hmem'
        · refine ⟨hpext.1.1, ?_⟩
          have := hrext.1.1
          simp [add_edge, add_node] at this
          omega
        · have hb := hbounds h hmem'
          have hb1 := hb.1
          simp [add_edge, add_node] at hb1
          have hp1 := hpext.1.1
          exact ⟨by omega, hb.2⟩
      · intro j g hg
        cases j with
        | zero =>
            have hgf : g = f := by
              rw [List.getElem?_cons_zero] at hg
              exact (Option.some.inj hg).symm
            subst hgf
            refine ⟨a₁.nodes.length, ⟨tyIdx, g.name⟩, List.getElem?_cons_zero, rfl, ?_, ?_⟩
            · have hlt : a₁.nodes.length <
                  (add_edge (add_node a₁ (Node.ErrorParam ⟨tyIdx, g.name⟩)).2
                    (add_node a₁ (Node.ErrorParam ⟨tyIdx, g.name⟩)).1 owner
                    Edge.ErrorParam).nodes.length := by
                simp [add_edge, add_node]
              show a'.nodes[a₁.nodes.length]? = some (Node.ErrorParam ⟨tyIdx, g.name⟩)
              rw [hrext.1.2.1 _ hlt]
              exact List.getElem?_concat_length a₁.nodes _
            · refine hrext.1.2.2 _ ?_
              show _ ∈ a₁.edges ++ [(a₁.nodes.length, owner, Edge.ErrorParam)]
              simp
        | succ j' =>
            rw [List.getElem?_cons_succ] at hg
            obtain ⟨h, fl, hhs, hname, hnode, hedge⟩ := hidx j' g hg
            exact ⟨h, fl, by rw [List.getElem?_cons_succ]; exact hhs, hname, hnode, hedge⟩

/-- The function-parameter loop gives every present parameter its own
fresh node and a `FunctionParam` containment edge to the owner, handles
strictly increasing in declaration order (empty slots skipped). -/
theorem lower_func_params_spec :
    ∀ (ps : List (Option Parameter)) {owner : Nat} {u : Unit} {a a' : Analyzer},
      lower_func_params owner ps a = .ok u a' →
      ∃ hs : List Nat,
        hs.length = ps.reduceOption.length ∧
        List.Chain' (· < ·) hs ∧
        (∀ h ∈ hs, a.nodes.length ≤ h ∧ h < a'.nodes.length) ∧
        (∀ (j : Nat) (p : Parameter), ps.reduceOption[j]? = some p →
            ∃ h param, hs[j]? = some h ∧
            FunctionParam.name param = p.name ∧
            node a' h = some (Node.FunctionParam param) ∧
            (h, owner, Edge.FunctionParam) ∈ a'.edges)
  | [], owner, u, a, a', h => by
      cases h
      exact ⟨[], rfl, List.chain'_nil, by simp, by simp⟩
  | none :: rest, owner, u, a, a', h => by
      simp only [lower_func_params] at h
      simpa only [List.reduceOption_cons_of_none] using lower_func_params_spec rest h
  | some input :: rest, owner, u, a, a', h => by
      simp only [lower_func_params] at h
      obtain ⟨par, a₁, h₁, h₂⟩ := PRes.bind_ok h
      obtain ⟨hs', hlen, hchain, hbounds, hidx⟩ := lower_func_params_spec rest h₂
      obtain ⟨tyIdx, a₀, hpe, hpar⟩ := PRes.bind_ok h₁
      cases hpar
      have hrext := lower_func_params_ext rest h₂
      have hpext := parse_expr_ext input.ty hpe
      simp only [List.reduceOption_cons_of_some]
      refine ⟨a₁.nodes.length :: hs', by simp [hlen], ?_, ?_, ?_⟩
      · refine List.chain'_cons'.mpr ⟨fun y hy => ?_, hchain⟩
        have hmem := List.mem_of_mem_head? hy
        have := (hbounds y hmem).1
        simp [add_edge, add_node] at this
        omega
      · intro h hmem
        rcases List.mem_cons.mp hmem with rfl | hmem'
        · refine ⟨hpext.1.1, ?_⟩
          have := hrext.1.1
          simp [add_edge, add_node] at this
          omega
        · have hb := hbounds h hmem'
          have hb1 := hb.1
          simp [add_edge, add_node] at hb1
          have hp1 := hpext.1.1
          exact ⟨by omega, hb.2⟩
      · intro j g hg
        cases j with
        | zero =>
            have hgf : g = input := by
              rw [List.getElem?_cons_zero] at hg
              exact (Option.some.inj hg).symm
            subst hgf
            refine ⟨a₁.nodes.length, ⟨tyIdx, g.name⟩, List.getElem?_cons_zero, rfl, ?_, ?_⟩
            · have hlt : a₁.nodes.length <
                  (add_edge (add_node a₁ (Node.FunctionParam ⟨tyIdx, g.name⟩)).2
                    (add_node a₁ (Node.FunctionParam ⟨tyIdx, g.name⟩)).1 owner
                    Edge.FunctionParam).nodes.length := by
                simp [add_edge, add_node]
              show a'.nodes[a₁.nodes.length]? = some (Node.FunctionParam ⟨tyIdx, g.name⟩)
              rw [hrext.1.2.1 _ hlt]
              exact List.getElem?_concat_length a₁.nodes _
            · refine hrext.1.2.2 _ ?_
              show _ ∈ a₁.edges ++ [(a₁.nodes.length, owner, Edge.FunctionParam)]
              simp
        | succ j' =>
            rw [List.getElem?_cons_succ] at hg
            obtain ⟨h, fl, hhs, hname, hnode, hedge⟩ := hidx j' g hg
            exact ⟨h, fl, by rw [List.getElem?_cons_succ]; exact hhs, hname, hnode, hedge⟩

/-- The function-return loop, analogous to the parameter loop. -/
theorem lower_func_returns_spec :
    ∀ (ps : List (Option Parameter)) {owner : Nat} {u : Unit} {a a' : Analyzer},
      lower_func_returns owner ps a = .ok u a' →
      ∃ hs : List Nat,
        hs.length = ps.reduceOption.length ∧
        List.Chain' (· < ·) hs ∧
        (∀ h ∈ hs, a.nodes.length ≤ h ∧ h < a'.nodes.length) ∧
        (∀ (j : Nat) (p : Parameter), ps.reduceOption[j]? = some p →
            ∃ h ret, hs[j]? = some h ∧
            FunctionReturn.name ret = p.name ∧
            node a' h = some (Node.FunctionReturn ret) ∧
            (h, owner, Edge.FunctionReturn) ∈ a'.edges)
  | [], owner, u, a, a', h => by
      cases h
      exact ⟨[], rfl, List.chain'_nil, by simp, by simp⟩
  | none :: rest, owner, u, a, a', h => by
      simp only [lower_func_returns] at h
      simpa only [List.reduceOption_cons_of_none] using lower_func_returns_spec rest h
  | some output :: rest, owner, u, a, a', h => by
      simp only [lower_func_returns] at h
      obtain ⟨ret, a₁, h₁, h₂⟩ := PRes.bind_ok h
      obtain ⟨hs', hlen, hchain, hbounds, hidx⟩ := lower_func_returns_spec rest h₂
      obtain ⟨tyIdx, a₀, hpe, hret⟩ := PRes.bind_ok h₁
      cases hret
      have hrext := lower_func_returns_ext rest h₂
      have hpext := parse_expr_ext output.ty hpe
      simp only [List.reduceOption_cons_of_some]
      refine ⟨a₁.nodes.length :: hs', by simp [hlen], ?_, ?_, ?_⟩
      · refine List.chain'_cons'.mpr ⟨fun y hy => ?_, hchain⟩
        have hmem := List.mem_of_mem_head? hy
        have := (hbounds y hmem).1
        simp [add_edge, add_node] at this
        omega
      · intro h hmem
        rcases List.mem_cons.mp hmem with rfl | hmem'
        · refine ⟨hpext.1.1, ?_⟩
          have := hrext.1.1
          simp [add_edge, add_node] at this
          omega
        · have hb := hbounds h hmem'
          have hb1 := hb.1
          simp [add_edge, add_node] at hb1
          have hp1 := hpext.1.1
          exact ⟨by omega, hb.2⟩
      · intro j g hg
        cases j with
        | zero =>
            have hgf : g = output := by
              rw [List.getElem?_cons_zero] at hg
              exact (Option.some.inj hg).symm
            subst hgf
            refine ⟨a₁.nodes.length, ⟨tyIdx, g.name⟩, List.getElem?_cons_zero, rfl, ?_, ?_⟩
            · have hlt : a₁.nodes.length <
                  (add_edge (add_node a₁ (Node.FunctionReturn ⟨tyIdx, g.name⟩)).2
                    (add_node a₁ (Node.FunctionReturn ⟨tyIdx, g.name⟩)).1 owner
                    Edge.FunctionReturn).nodes.length := by
                simp [add_edge, add_node]
              show a'.nodes[a₁.nodes.length]? = some (Node.FunctionReturn ⟨tyIdx, g.name⟩)
              rw [hrext.1.2.1 _ hlt]
              exact List.getElem?_concat_length a₁.nodes _
            · refine hrext.1.2.2 _ ?_
              show _ ∈ a₁.edges ++ [(a₁.nodes.length, owner, Edge.FunctionReturn)]
              simp
        | succ j' =>
            rw [List.getElem?_cons_succ] at hg
            obtain ⟨h, fl, hhs, hname, hnode, hedge⟩ := hidx j' g hg
            exact ⟨h, fl, by rw [List.getElem?_cons_succ]; exact hhs, hname, hnode, hedge⟩

/-- C8: struct fields, error parameters, and function parameters and
returns are each lowered to their own child node carrying a containment
edge directed from the child to the owning declaration node, and the
children are created in declaration order (their handles are strictly
increasing along the declaration sequence; empty parameter slots of the
AST are skipped). -/
theorem C8_children_in_declaration_order :
    (∀ (sd : StructDefinition) (a : Analyzer) (v : Nat) (a' : Analyzer),
        parse_struct_def sd a = .ok v a' →
        ∃ hs : List Nat, hs.length = sd.fields.length ∧ List.Chain' (· < ·) hs ∧
          ∀ (j : Nat) (f : VariableDeclaration), sd.fields[j]? = some f →
            ∃ h fld, hs[j]? = some h ∧ Field.name fld = f.name ∧
              node a' h = some (Node.Field fld) ∧ (h, v, Edge.Field) ∈ a'.edges) ∧
    (∀ (ed : ErrorDefinition) (a : Analyzer) (v : Nat) (a' : Analyzer),
        parse_err_def ed a = .ok v a' →
        ∃ hs : List Nat, hs.length = ed.fields.length ∧ List.Chain' (· < ·) hs ∧
          ∀ (j : Nat) (f : ErrorParameter), ed.fields[j]? = some f →
            ∃ h param, hs[j]? = some h ∧ ErrorParam.name param = f.name ∧
              node a' h = some (Node.ErrorParam param) ∧
              (h, v, Edge.ErrorParam) ∈ a'.edges) ∧
    (∀ (fd : FunctionDefinition) (a : Analyzer) (v : Nat) (a' : Analyzer),
        parse_func_def fd a = .ok v a' →
        (∃ hs : List Nat, hs.length = fd.params.reduceOption.length ∧
          List.Chain' (· < ·) hs ∧
          ∀ (j : Nat) (p : Parameter), fd.params.reduceOption[j]? = some p →
            ∃ h param, hs[j]? = some h ∧ FunctionParam.name param = p.name ∧
              node a' h = some (Node.FunctionParam param) ∧
              (h, v, Edge.FunctionParam) ∈ a'.edges) ∧
        (∃ hs : List Nat, hs.length = fd.returns.reduceOption.length ∧
          List.Chain' (· < ·) hs ∧
          ∀ (j : Nat) (p : Parameter), fd.returns.reduceOption[j]? = some p →
            ∃ h ret, hs[j]? = some h ∧ FunctionReturn.name ret = p.name ∧
              node a' h = some (Node.FunctionReturn ret) ∧
              (h, v, Edge.FunctionReturn) ∈ a'.edges)) := by
  refine ⟨fun sd a v a' h => ?_, fun ed a v a' h => ?_, fun fd a v a' h => ?_⟩
  · simp only [parse_struct_def] at h
    split at h
    · exact PRes.noConfusion h
    · obtain ⟨sn, aStep, hstep, hrest⟩ := PRes.bind_ok h
      obtain ⟨u, a₂, hloop, hfin⟩ := PRes.bind_ok hrest
      cases hfin
      obtain ⟨hs, hlen, hchain, _, hidx⟩ := lower_struct_fields_spec sd.fields hloop
      exact ⟨hs, hlen, hchain, hidx⟩
  · simp only [parse_err_def] at h
    obtain ⟨u, a₁, hloop, hfin⟩ := PRes.bind_ok h
    cases hfin
    obtain ⟨hs, hlen, hchain, _, hidx⟩ := lower_err_params_spec ed.fields hloop
    exact ⟨hs, hlen, hchain, hidx⟩
  · simp only [parse_func_def] at h
    split at h
    · exact PRes.noConfusion h
    · obtain ⟨fn, aStep, hstep, h₂⟩ := PRes.bind_ok h
      obtain ⟨u₁, a₂, h₃, h₄⟩ := PRes.bind_ok h₂
      obtain ⟨u₂, a₃, h₅, h₆⟩ := PRes.bind_ok h₄
      have hkey : v = fn ∧ Ext a₂ a' ∧ Ext a₃ a' := by
        split at h₆
        · cases h₆
          exact ⟨rfl,
            (lower_func_returns_ext fd.returns h₅).etrans
              (parse_ctx_statement_ext _ _ _ _),
            parse_ctx_statement_ext _ _ _ _⟩
        · cases h₆
          exact ⟨rfl, (lower_func_returns_ext fd.returns h₅).etrans (Ext.erefl _),
            Ext.erefl _⟩
      obtain ⟨hveq, hpost, hretpost⟩ := hkey
      subst hveq
      constructor
      · obtain ⟨hs, hlen, hchain, hbounds, hidx⟩ := lower_func_params_spec fd.params h₃
        refine ⟨hs, hlen, hchain, fun j p hp => ?_⟩
        obtain ⟨hh, param, hhs, hname, hnode, hedge⟩ := hidx j p hp
        have hb := hbounds hh (List.getElem?_mem hhs)
        refine ⟨hh, param, hhs, hname, ?_, hpost.1.2.2 _ hedge⟩
        show a'.nodes[hh]? = _
        rw [hpost.1.2.1 hh hb.2]
        exact hnode
      · obtain ⟨hs, hlen, hchain, hbounds, hidx⟩ := lower_func_returns_spec fd.returns h₅
        refine ⟨hs, hlen, hchain, fun j p hp => ?_⟩
        obtain ⟨hh, ret, hhs, hname, hnode, hedge⟩ := hidx j p hp
        have hb := hbounds hh (List.getElem?_mem hhs)
        refine ⟨hh, ret, hhs, hname, ?_, hretpost.1.2.2 _ hedge⟩
        show a'.nodes[hh]? = _
        rw [hretpost.1.2.1 hh hb.2]
        exact hnode

/-- Witness for C8 at a concrete run: a struct with two fields lowered in
the empty analyzer yields child nodes 1 and 2 with `Field` edges to the
struct node 0. -/
theorem C8_children_in_declaration_order_witness :
    ∃ hs : List Nat,
      hs.length = ([⟨Expression.Other, some ⟨"f1"⟩⟩, ⟨Expression.Other, some ⟨"f2"⟩⟩] :
        List VariableDeclaration).length ∧
      List.Chain' (· < ·) hs ∧
      ∀ (j : Nat) (f : VariableDeclaration),
        ([⟨Expression.Other, some ⟨"f1"⟩⟩, ⟨Expression.Other, some ⟨"f2"⟩⟩] :
          List VariableDeclaration)[j]? = some f →
        ∃ h fld, hs[j]? = some h ∧ Field.name fld = f.name ∧
          node (⟨[Node.Struct ⟨some ⟨"S"⟩⟩, Node.Field ⟨0, some ⟨"f1"⟩⟩,
                  Node.Field ⟨0, some ⟨"f2"⟩⟩],
                 [(1, 0, Edge.Field), (2, 0, Edge.Field)], [], [],
                 [("S", 0)]⟩ : Analyzer) h = some (Node.Field fld) ∧
          (h, 0, Edge.Field) ∈
            (⟨[Node.Struct ⟨some ⟨"S"⟩⟩, Node.Field ⟨0, some ⟨"f1"⟩⟩,
                Node.Field ⟨0, some ⟨"f2"⟩⟩],
               [(1, 0, Edge.Field), (2, 0, Edge.Field)], [], [],
               [("S", 0)]⟩ : Analyzer).edges :=
  C8_children_in_declaration_order.1
    ⟨some ⟨"S"⟩, [⟨Expression.Other, some ⟨"f1"⟩⟩, ⟨Expression.Other, some ⟨"f2"⟩⟩]⟩
    ⟨[], [], [], [], []⟩ 0
    ⟨[Node.Struct ⟨some ⟨"S"⟩⟩, Node.Field ⟨0, some ⟨"f1"⟩⟩, Node.Field ⟨0, some ⟨"f2"⟩⟩],
      [(1, 0, Edge.Field), (2, 0, Edge.Field)], [], [], [("S", 0)]⟩ rfl

/-- Witness for C1 at a concrete run: a struct declaration whose name was
forward-referenced rewrites the placeholder at handle 0 in place. -/
theorem C1_amended_witness :
    (0 : Nat) = 0 ∧
    node ⟨[Node.Struct ⟨some ⟨"S"⟩⟩], [], [], [], [("S", 0)]⟩ 0 =
      some (Node.Struct (Struct.from ⟨some ⟨"S"⟩, []⟩)) :=
  C1_amended.1 ⟨some ⟨"S"⟩, []⟩ ⟨[Node.Unresolved ⟨"S"⟩], [], [], [], [("S", 0)]⟩
    ⟨"S"⟩ 0 0 ⟨[Node.Struct ⟨some ⟨"S"⟩⟩], [], [], [], [("S", 0)]⟩
    rfl rfl (by decide) rfl

end Pyro
